import Mathlib

/-!
# Verification of the GenAIStudio workflow execution engine

Shallow embedding of the server-side workflow execution engine
(`server/services/workflow.ts`, exercised through `server/routes.ts`), the
AI-node mock executor and template resolver (`server/services/ai.ts`), and a
spec-modelled webhook gateway (the HTTP webhook endpoint is exercised by
`tests/feature-tests.js` but its implementation is not part of the sources).

JavaScript values are modelled by the inductive `Value`; `undefined` and
`null` are distinguished.  Numbers are modelled as exact fractions
`num n d` (value `n / d`, `d` positive in every value the programs build):
the programs only ever compute with small decimal constants and integer
arithmetic, so floating point rounding, NaN and Infinity never arise on the
inputs considered.  Records (JS objects) are ordered association lists,
mirroring JS insertion-ordered own properties.
-/

/-- JSON-like JavaScript runtime value. `undef` models `undefined`. -/
inductive Value where
  | undef : Value
  | null : Value
  | bool (b : Bool) : Value
  | num (n : Int) (d : Nat) : Value
  | str (s : String) : Value
  | arr (elems : List Value) : Value
  | obj (fields : List (String × Value)) : Value

/-- A JS object: insertion-ordered association list of own properties. -/
abbrev RObj := List (String × Value)

/-- Property read `m[k]` on a plain object: `undefined` when absent. -/
def objGet (m : RObj) (k : String) : Value :=
  match m.find? (fun p => p.1 == k) with
  | some p => p.2
  | none => Value.undef

/-- `k in m` (own property present). -/
def hasKey (m : RObj) (k : String) : Bool :=
  m.any (fun p => p.1 == k)

/-- Assignment `m[k] = v`: updates in place, otherwise appends (JS property
insertion order). -/
def setKey (m : RObj) (k : String) (v : Value) : RObj :=
  if m.any (fun p => p.1 == k) then
    m.map (fun p => if p.1 == k then (k, v) else p)
  else
    m ++ [(k, v)]

/-- JS truthiness (`Boolean(v)`). -/
def truthy : Value → Bool
  | Value.undef => false
  | Value.null => false
  | Value.bool b => b
  | Value.num n _ => n != 0
  | Value.str s => s != ""
  | Value.arr _ => true
  | Value.obj _ => true

/-- JS `a || b`. -/
def jsOr (a b : Value) : Value :=
  if truthy a then a else b

/-- Decimal digits of the fractional part `r / d` (long division; the source
programs only stringify terminating decimals, so 17 digits suffice). -/
def fracDigits : Nat → Nat → Nat → List Char
  | 0, _, _ => []
  | _, 0, _ => []
  | f + 1, r, d =>
    let r10 := r * 10
    Char.ofNat (48 + r10 / d) :: fracDigits f (r10 % d) d

/-- JS `String(x)` for a (finite) number `n / d`. -/
def jsNumToString (n : Int) (d : Nat) : String :=
  let sign := if n < 0 then "-" else ""
  let na := n.natAbs
  let whole := na / d
  let rem := na % d
  if rem = 0 then sign ++ toString whole
  else sign ++ toString whole ++ "." ++ String.mk (fracDigits 17 rem d)

mutual
/-- Array stringification (`Array.prototype.toString`): elements joined by
commas. -/
def jsArrToString : List Value → String
  | [] => ""
  | [x] => jsElemToString x
  | x :: xs => jsElemToString x ++ "," ++ jsArrToString xs

/-- One array element inside `Array.prototype.toString`: `null`/`undefined`
print as the empty string, other values as `String(v)`. -/
def jsElemToString : Value → String
  | Value.undef => ""
  | Value.null => ""
  | Value.bool b => if b then "true" else "false"
  | Value.num n d => jsNumToString n d
  | Value.str s => s
  | Value.arr xs => jsArrToString xs
  | Value.obj _ => "[object Object]"
end

/-- JS `String(v)` / `v.toString()` (identical on the value kinds that do not
throw; `null`/`undefined` are handled at call sites, since `.toString()`
throws on them while `String(...)` does not). -/
def jsToString : Value → String
  | Value.undef => "undefined"
  | Value.null => "null"
  | Value.bool b => if b then "true" else "false"
  | Value.num n d => jsNumToString n d
  | Value.str s => s
  | Value.arr xs => jsArrToString xs
  | Value.obj _ => "[object Object]"

/-- `s.startsWith(p)` as a structural character-list computation. -/
def strStartsWith (s p : String) : Bool :=
  p.data.isPrefixOf s.data

/-- JS `s.substring(1)` (drop the first character). -/
def strDrop1 (s : String) : String :=
  String.mk (s.data.drop 1)

/-- `split` on a single character (JS `String.prototype.split` with a
one-character separator): `""` splits to `[""]`. -/
def splitOnChar (c : Char) : List Char → List (List Char)
  | [] => [[]]
  | x :: xs =>
    match splitOnChar c xs with
    | [] => [[]]
    | g :: gs => if x = c then [] :: g :: gs else (x :: g) :: gs

/-- JS `path.split(sep)` for the one-character separators the programs use. -/
def strSplitOn (s : String) (c : Char) : List String :=
  (splitOnChar c s.data).map String.mk

/-- ASCII whitespace test (sufficient for the paths the programs trim). -/
def isWS (ch : Char) : Bool :=
  ch = ' ' || ch = '\t' || ch = '\n' || ch = '\r'

/-- JS `s.trim()`. -/
def strTrim (s : String) : String :=
  String.mk (((s.data.dropWhile isWS).reverse.dropWhile isWS).reverse)

/-- JS `s.includes(c)` for one character. -/
def strContainsChar (s : String) (c : Char) : Bool :=
  s.data.any (fun x => x == c)

/-- Decimal digit value of a character, if any. -/
def digitVal (ch : Char) : Option Nat :=
  let n := ch.toNat
  if 48 ≤ n && n ≤ 57 then some (n - 48) else none

/-- Auxiliary decimal accumulator for `strToNat`. -/
def natOfDigits : List Char → Nat → Option Nat
  | [], acc => some acc
  | ch :: rest, acc =>
    match digitVal ch with
    | some dv => natOfDigits rest (acc * 10 + dv)
    | none => none

/-- Canonical-decimal array index test (the cases of `current[part]` the
engine meets on arrays). -/
def strToNat (s : String) : Option Nat :=
  match s.data with
  | [] => none
  | cs => natOfDigits cs 0

/-- JS property access `v[part]` for the value kinds the engine walks through:
objects by key, arrays by numeric index (plus `length`), strings by index
(plus `length`); other property reads yield `undefined`. -/
def propGet : Value → String → Value
  | Value.obj fields, k => objGet fields k
  | Value.arr xs, k =>
    if k = "length" then Value.num (xs.length : Int) 1
    else
      match strToNat k with
      | some i => (xs.get? i).getD Value.undef
      | none => Value.undef
  | Value.str s, k =>
    if k = "length" then Value.num (s.data.length : Int) 1
    else
      match strToNat k with
      | some i =>
        match s.data.get? i with
        | some c => Value.str (String.mk [c])
        | none => Value.undef
      | none => Value.undef
  | _, _ => Value.undef

/-- The walk loop shared by `getValueFromPath` (workflow.ts) and
`getInputValue` (ai.ts): `for (const part of parts) { if (current === null ||
current === undefined) return undefined; current = current[part]; }`. -/
def walkPath : Value → List String → Value
  | v, [] => v
  | Value.undef, _ :: _ => Value.undef
  | Value.null, _ :: _ => Value.undef
  | v, p :: rest => walkPath (propGet v p) rest

/-- `getValueFromPath(obj, path)` from `server/services/workflow.ts`:
empty path gives `undefined`; a leading `$` is stripped; then a dotted walk
over the outputs object. -/
def getValueFromPath (outs : RObj) (path : String) : Value :=
  if path = "" then Value.undef
  else
    let p := if strStartsWith path "$" then strDrop1 path else path
    walkPath (Value.obj outs) (strSplitOn p '.')

/-- `getInputValue(inputs, path)` from `server/services/ai.ts`: like
`getValueFromPath` but the literal (post-strip) path `_all` returns the whole
inputs object. -/
def getInputValue (inputs : RObj) (path : String) : Value :=
  if path = "" then Value.undef
  else
    let p := if strStartsWith path "$" then strDrop1 path else path
    if p = "_all" then Value.obj inputs
    else walkPath (Value.obj inputs) (strSplitOn p '.')

/-- Capture of the regex `/\x7b\x7b([^\x7d]+)\x7d\x7d/` body starting right
after an opening `\x7b\x7b`: one or more non-`\x7d` characters followed by
`\x7d\x7d`; returns the captured body and the text after the match. -/
def grabBody : List Char → Option (List Char × List Char)
  | [] => none
  | c :: rest =>
    if c = '}' then
      match rest with
      | c2 :: tail => if c2 = '}' then some ([], tail) else none
      | [] => none
    else
      match grabBody rest with
      | some (b, t) => some (c :: b, t)
      | none => none

theorem grabBody_length : ∀ cs b t, grabBody cs = some (b, t) → t.length < cs.length := by
  intro cs
  induction cs with
  | nil => intro b t h; simp [grabBody] at h
  | cons c rest ih =>
    intro b t h
    simp only [grabBody] at h
    by_cases hc : c = '}'
    · rw [if_pos hc] at h
      match rest, h with
      | [], h => simp at h
      | c2 :: tail, h =>
        by_cases h2 : c2 = '}'
        · simp [h2] at h
          obtain ⟨h1, ht⟩ := h
          subst ht
          simp
          omega
        · simp [h2] at h
    · rw [if_neg hc] at h
      match hg : grabBody rest with
      | some (b0, t0) =>
        rw [hg] at h
        simp at h
        obtain ⟨hb, ht⟩ := h
        subst ht
        have := ih b0 t0 hg
        simp
        omega
      | none => rw [hg] at h; simp at h

/-- `template.replace(/\x7b\x7b([^\x7d]+)\x7d\x7d/g, ...)` from
`processTemplate` in `server/services/ai.ts`, as a leftmost-match scanner:
at an opening `\x7b\x7b` with a well-formed nonempty body, the placeholder is
replaced by `String(value)` when `getInputValue(inputs, path.trim())` is
defined, and kept verbatim otherwise; scanning resumes after the match.
Positions where the regex cannot match advance by one character. -/
def scanTmpl (inputs : RObj) : Nat → List Char → List Char
  | 0, _ => []
  | _, [] => []
  | fuel + 1, '{' :: '{' :: rest =>
    match grabBody rest with
    | some (body, tail) =>
      if body.isEmpty then '{' :: scanTmpl inputs fuel ('{' :: rest)
      else
        match getInputValue inputs (strTrim (String.mk body)) with
        | Value.undef => '{' :: '{' :: (body ++ '}' :: '}' :: scanTmpl inputs fuel tail)
        | v => (jsToString v).data ++ scanTmpl inputs fuel tail
    | none => '{' :: scanTmpl inputs fuel ('{' :: rest)
  | fuel + 1, c :: rest => c :: scanTmpl inputs fuel rest

/-- `processTemplate(template, inputs)` from `server/services/ai.ts`. -/
def processTemplate (template : String) (inputs : RObj) : String :=
  String.mk (scanTmpl inputs template.data.length template.data)

/-! ## Data model (shared/schema.ts, as used by the engine) -/

/-- A workflow edge row (`workflow_edges`): source and target step ids, plus
the optional branch label read by the engine (`edge.label`). Step ids are
modelled as the strings the engine works with (`step.id.toString()`). -/
structure EdgeDef where
  sourceId : String
  targetId : String
  label : Option String := none

/-- A workflow step row together with its `config`. Config entries that hold
user-authored JavaScript (`config.code`, `config.condition`,
`config.expression`, `config.predicate`) are modelled as the functions the
engine builds from them with `new Function(...)`: they receive the `inputs`
binding and `context.outputs` and either return a value or throw. -/
structure StepDef where
  id : String
  type : String
  code : Option (RObj → RObj → Except String Value) := none
  condition : Option (RObj → RObj → Except String Bool) := none
  expression : Option (RObj → RObj → Except String Value) := none
  input : Option String := none
  predicate : Option (Value → Nat → List Value → Except String Bool) := none
  mergeInputs : List String := []
  prompt : Option String := none
  question : Option String := none
  categories : Option (List String) := none

/-- The persisted graph of one workflow. -/
structure Graph where
  steps : List StepDef
  edges : List EdgeDef

/-- `steps.find(s => s.id.toString() === nodeId)`. -/
def findStep (g : Graph) (nid : String) : Option StepDef :=
  g.steps.find? (fun st => st.id == nid)

/-- `edges.filter(e => e.sourceId.toString() === nodeId)`. -/
def outEdges (g : Graph) (nid : String) : List EdgeDef :=
  g.edges.filter (fun e => e.sourceId == nid)

/-- Start nodes: steps with no incoming edge. -/
def startSteps (g : Graph) : List StepDef :=
  g.steps.filter (fun st => !(g.edges.any (fun e => e.targetId == st.id)))

/-- `getNodeInputs(nodeId, context)` from workflow.ts: the inputs view is the
single binding `_all` to the current outputs object. -/
def getNodeInputs (_nodeId : String) (outs : RObj) : RObj :=
  [("_all", Value.obj outs)]

/-- One `StepExecution` row as the engine writes it (identity and times are
managed by storage and omitted). -/
structure StepRec where
  stepId : String
  status : String
  input : RObj
  output : Option Value := none
  error : Option String := none

/-- `ExecutionContext` of workflow.ts: the run-scoped outputs map, the
visited set, the current call path, plus the step-execution rows created so
far (storage-side, shared by reference across loop iteration contexts). -/
structure EngSt where
  outs : RObj
  path : List String
  visited : List String
  recs : List StepRec

/-- Point update of the step-execution row at an index. -/
def updRec (f : StepRec → StepRec) : List StepRec → Nat → List StepRec
  | [], _ => []
  | r :: rs, 0 => f r :: rs
  | r :: rs, n + 1 => r :: updRec f rs n

/-- `updateStepExecution(id, \x7bstatus: "failed", error\x7d)`. -/
def failRec (recs : List StepRec) (i : Nat) (msg : String) : List StepRec :=
  updRec (fun r => { r with status := "failed", error := some msg }) recs i

/-- `updateStepExecution(id, \x7bstatus: "completed", output\x7d)`. -/
def completeRec (recs : List StepRec) (i : Nat) (v : Value) : List StepRec :=
  updRec (fun r => { r with status := "completed", output := some v }) recs i

/-- `evaluateCondition(node, context)` from workflow.ts: builds
`Boolean(config.condition || "false")` over the inputs view and outputs;
any thrown error is caught and yields `false`. -/
def evaluateCondition (st : StepDef) (outs : RObj) : Bool :=
  match st.condition with
  | none => false
  | some fn =>
    match fn (getNodeInputs st.id outs) outs with
    | Except.ok b => b
    | Except.error _ => false

/-- `evaluateSwitchExpression(node, context)` from workflow.ts: evaluates
`config.expression || ""` (the empty default returns `undefined`); a thrown
error is caught and yields `null`. -/
def evaluateSwitchExpression (st : StepDef) (outs : RObj) : Value :=
  match st.expression with
  | none => Value.undef
  | some fn =>
    match fn (getNodeInputs st.id outs) outs with
    | Except.ok v => v
    | Except.error _ => Value.null

/-! ## AI nodes (server/services/ai.ts, demo mode) -/

/-- `executeMockAINode(node, options)`: the deterministic mock responses used
when no Anthropic credential is configured. -/
def executeMockAINode (node : StepDef) (inputs : RObj) : Value :=
  match node.type with
  | "basic_llm_chain" =>
    Value.str ("[MOCK] Response to: " ++ processTemplate (node.prompt.getD "") inputs)
  | "ai_transform" =>
    Value.str ("[MOCK] Transformed: " ++
      jsToString (getInputValue inputs (match node.input with
        | some s => if s = "" then "_all" else s
        | none => "_all")))
  | "information_extractor" =>
    Value.obj [("name", Value.str "Mock Extraction"),
               ("value", Value.str "This is a mock extraction result"),
               ("confidence", Value.num 95 100)]
  | "qa_chain" =>
    Value.str ("[MOCK] Answer to question: " ++ processTemplate (node.question.getD "") inputs)
  | "sentiment_analysis" =>
    Value.obj [("sentiment", Value.str "positive"),
               ("score", Value.num 8 10),
               ("explanation", Value.str "This is a mock positive sentiment result")]
  | "summarization_chain" => Value.str "[MOCK] This is a mock summary of the input text."
  | "text_classifier" =>
    let categories := node.categories.getD ["category1", "category2"]
    Value.obj [("category", match categories with
                 | [] => Value.undef
                 | c :: _ => Value.str c),
               ("confidence", Value.num 9 10),
               ("explanation", Value.str "This is a mock classification result")]
  | _ => Value.str "[MOCK] Response from unsupported AI node type"

/-- `executeAINode(node, options)` in demo mode: with no `ANTHROPIC_API_KEY`
and no stored `"anthropic"` credential the function returns
`executeMockAINode(node, options)`.  Live mode performs a network call and is
outside this embedding; the spec scenarios (S1, S5) run the mock. -/
def executeAINode (node : StepDef) (inputs : RObj) : Value :=
  executeMockAINode node inputs

/-! ## The execution engine (server/services/workflow.ts) -/

/-- Type of one recursive dispatch of `executeNode` (node id and context in,
result-or-thrown-error and context out). -/
abbrev ExecFun := String → EngSt → Except String Value × EngSt

/-- Sequential `for`-loop over child dispatches; a thrown error aborts the
loop and propagates (results are discarded). -/
def seqRun (exec1 : ExecFun) : List String → EngSt → Except String Unit × EngSt
  | [], s => (Except.ok (), s)
  | t :: ts, s =>
    match exec1 t s with
    | (Except.error e, s1) => (Except.error e, s1)
    | (Except.ok _, s1) => seqRun exec1 ts s1

/-- Sequential loop over child dispatches that collects the returned values
(the `itemResults` loop of the `loop` handler). -/
def collectRun (exec1 : ExecFun) : List String → EngSt → Except String (List Value) × EngSt
  | [], s => (Except.ok [], s)
  | t :: ts, s =>
    match exec1 t s with
    | (Except.error e, s1) => (Except.error e, s1)
    | (Except.ok v, s1) =>
      match collectRun exec1 ts s1 with
      | (Except.error e, s2) => (Except.error e, s2)
      | (Except.ok vs, s2) => (Except.ok (v :: vs), s2)

/-- The per-item loop of the `loop` handler: each iteration runs the child
edges in a fresh iteration context whose outputs are a shallow copy of the
loop's outputs augmented with `currentItem`, and whose call path is a copy of
the loop's path; the visited set and the step-execution rows are shared by
reference and thread through. -/
def iterRun (exec1 : ExecFun) (targets : List String) (baseOuts : RObj) (basePath : List String) :
    List Value → EngSt → Except String (List Value) × EngSt
  | [], s => (Except.ok [], s)
  | it :: rest, s =>
    let s1 := { s with outs := setKey baseOuts "currentItem" it, path := basePath }
    match collectRun exec1 targets s1 with
    | (Except.error e, s2) => (Except.error e, s2)
    | (Except.ok rs, s2) =>
      match iterRun exec1 targets baseOuts basePath rest s2 with
      | (Except.error e, s3) => (Except.error e, s3)
      | (Except.ok rss, s3) => (Except.ok (Value.arr rs :: rss), s3)

/-- `inputArray.filter((item, index, array) => filterFn(item, index, array))`
with a predicate that may throw. -/
def filterGo (p : Value → Nat → List Value → Except String Bool) (full : List Value) :
    List Value → Nat → Except String (List Value)
  | [], _ => Except.ok []
  | x :: rest, i =>
    match p x i full with
    | Except.error e => Except.error e
    | Except.ok true => (filterGo p full rest (i + 1)).map (fun ys => x :: ys)
    | Except.ok false => filterGo p full rest (i + 1)

/-- `Object.assign(result, v)`: enumerable own properties of an object,
index keys of an array, character indices of a string; primitives contribute
nothing. -/
def objAssign (acc : RObj) (v : Value) : RObj :=
  match v with
  | Value.obj fs => fs.foldl (fun a kv => setKey a kv.1 kv.2) acc
  | Value.arr xs => (xs.enum).foldl (fun a p => setKey a (toString p.1) p.2) acc
  | Value.str s => (s.data.enum).foldl (fun a p => setKey a (toString p.1) (Value.str (String.mk [p.2]))) acc
  | _ => acc

/-- One source of the `merge` handler: resolve the path; skip `undefined`;
dotted sources assign under their last segment, plain sources shallow-merge. -/
def mergeStep (outs : RObj) (acc : RObj) (src : String) : RObj :=
  match getValueFromPath outs src with
  | Value.undef => acc
  | v =>
    if strContainsChar src '.' then
      setKey acc ((strSplitOn src '.').getLastD "") v
    else
      objAssign acc v

/-- The thrown message `Circular dependency detected in execution path:
p1 -> ... -> pn -> nodeId`. -/
def cyclePathMsg (path : List String) (nid : String) : String :=
  "Circular dependency detected in execution path: " ++
    String.intercalate " -> " path ++ " -> " ++ nid

/-- The step kinds that dispatch their own successors inside their case arm
(`["condition", "switch", "loop"].includes(node.type)`). -/
def branching (t : String) : Bool :=
  t == "condition" || t == "switch" || t == "loop"

/-- The `switch (node.type)` body of `executeNode`, with the recursive
dispatch abstracted as `exec1`.  Returns the node's result value (or the
thrown error) and the updated context. -/
def runCase (exec1 : ExecFun) (g : Graph) (st : StepDef) (nid : String) (s : EngSt) :
    Except String Value × EngSt :=
  match st.type with
  | "basic_llm_chain" | "ai_transform" | "information_extractor" | "qa_chain"
  | "sentiment_analysis" | "summarization_chain" | "text_classifier" =>
    (Except.ok (executeAINode st (getNodeInputs nid s.outs)), s)
  | "code" =>
    match st.code with
    | none => (Except.ok Value.null, s)
    | some fn =>
      match fn (getNodeInputs nid s.outs) s.outs with
      | Except.ok v => (Except.ok v, s)
      | Except.error e => (Except.error e, s)
  | "condition" =>
    let c := evaluateCondition st s.outs
    let out := Value.obj [("condition", Value.bool c), ("result", Value.bool c)]
    let nextTargets :=
      ((outEdges g nid).filter
        (fun e => (c && e.label == some "true") || (!c && e.label == some "false"))).map
        (fun e => e.targetId)
    match seqRun exec1 nextTargets s with
    | (Except.ok _, s1) => (Except.ok out, s1)
    | (Except.error e, s1) => (Except.error e, s1)
  | "switch" =>
    let sv := evaluateSwitchExpression st s.outs
    let out := Value.obj [("switchValue", sv)]
    match sv with
    | Value.null => (Except.error "Cannot read properties of null (reading toString)", s)
    | Value.undef => (Except.error "Cannot read properties of undefined (reading toString)", s)
    | _ =>
      let caseEdges := outEdges g nid
      let matching :=
        (caseEdges.find? (fun e => e.label == some (jsToString sv))).orElse
          (fun _ => caseEdges.find? (fun e => e.label == some "default"))
      match matching with
      | none => (Except.ok out, s)
      | some e =>
        match exec1 e.targetId s with
        | (Except.ok _, s1) => (Except.ok out, s1)
        | (Except.error er, s1) => (Except.error er, s1)
  | "loop" =>
    let configInput := st.input.getD ""
    let items :=
      if strStartsWith configInput "$" then getValueFromPath s.outs (strDrop1 configInput)
      else jsOr (objGet s.outs configInput) (Value.arr [])
    match items with
    | Value.arr xs =>
      let targets := (outEdges g nid).map (fun e => e.targetId)
      match iterRun exec1 targets s.outs s.path xs s with
      | (Except.error e, s1) => (Except.error e, { s1 with outs := s.outs, path := s.path })
      | (Except.ok rss, s1) => (Except.ok (Value.arr rss), { s1 with outs := s.outs, path := s.path })
    | _ => (Except.error "Loop input must be an array", s)
  | "filter" =>
    match getValueFromPath s.outs (st.input.getD "") with
    | Value.arr xs =>
      match filterGo (st.predicate.getD (fun _ _ _ => Except.ok true)) xs xs 0 with
      | Except.ok ys => (Except.ok (Value.arr ys), s)
      | Except.error e => (Except.error e, s)
    | _ => (Except.error "Filter input must be an array", s)
  | "merge" =>
    (Except.ok (Value.obj (st.mergeInputs.foldl (mergeStep s.outs) [])), s)
  | _ => (Except.ok (Value.obj [("triggered", Value.bool true)]), s)

/-- `executeNode(nodeId, context)` from workflow.ts, with a structural fuel
bounding the recursion depth (the source recursion is unbounded; every claim
that mentions a terminating run supplies enough fuel).  Faithfully in order:
the visited guard, the step lookup (missing steps return `null` silently),
creation of the running StepExecution with the inputs view, the
current-path cycle check (whose throw is caught below, failing the row and
popping the path), the `switch` on the node type, the output commit /
visited add / path pop / completed row, and the post-completion dispatch of
all outgoing edges for non-branching kinds (whose failure re-fails the row). -/
def execNode (g : Graph) : Nat → String → EngSt → Except String Value × EngSt
  | 0, _, s => (Except.error "OUT_OF_FUEL", s)
  | f + 1, nid, s =>
    if s.visited.contains nid then (Except.ok (objGet s.outs nid), s)
    else
      match findStep g nid with
      | none => (Except.ok Value.null, s)
      | some st =>
        let recIdx := s.recs.length
        let s0 : EngSt :=
          { s with recs := s.recs ++
              [{ stepId := nid, status := "running", input := getNodeInputs nid s.outs }] }
        if s0.path.contains nid then
          let msg := cyclePathMsg s0.path nid
          (Except.error msg,
           { s0 with
             recs := failRec s0.recs recIdx msg
             path := s0.path.dropLast })
        else
          let s1 := { s0 with path := s0.path ++ [nid] }
          match runCase (execNode g f) g st nid s1 with
          | (Except.error e, s2) =>
            (Except.error e,
             { s2 with
               recs := failRec s2.recs recIdx e
               path := s2.path.dropLast })
          | (Except.ok v, s2) =>
            let s3 : EngSt :=
              { s2 with
                outs := setKey s2.outs nid v
                visited := s2.visited ++ [nid]
                path := s2.path.dropLast
                recs := completeRec s2.recs recIdx v }
            if branching st.type then (Except.ok v, s3)
            else
              match seqRun (execNode g f) ((outEdges g nid).map (fun e => e.targetId)) s3 with
              | (Except.ok _, s4) => (Except.ok v, s4)
              | (Except.error e, s4) =>
                (Except.error e,
                 { s4 with
                   recs := failRec s4.recs recIdx e
                   path := s4.path.dropLast })

/-- Outcome of `executeWorkflow` as persisted on the WorkflowExecution row:
terminal status, error message, the outputs map (written only on success;
a failed run keeps the empty initial outputs), and the StepExecution rows. -/
structure RunOutcome where
  status : String
  error : Option String
  outputs : RObj
  recs : List StepRec

/-- `executeWorkflow(workflow)` for a manual run (no trigger envelope):
initial outputs are empty, start nodes are the steps with no incoming edge,
each start node is dispatched in turn, and the run is finalized `completed`
with the context outputs, or `failed` with the propagated error message. -/
def runWorkflow (fuel : Nat) (g : Graph) : RunOutcome :=
  let startIds := (startSteps g).map (fun st => st.id)
  let s0 : EngSt := { outs := [], path := [], visited := [], recs := [] }
  match seqRun (execNode g fuel) startIds s0 with
  | (Except.ok _, s) => { status := "completed", error := none, outputs := s.outs, recs := s.recs }
  | (Except.error e, s) => { status := "failed", error := some e, outputs := [], recs := s.recs }

/-- Number of StepExecution rows for a given step id with terminal status
`completed` in a run. -/
def countCompleted (recs : List StepRec) (sid : String) : Nat :=
  (recs.filter (fun r => r.stepId == sid && r.status == "completed")).length

/-! ## Concrete workflows for the spec scenarios -/

/-- Scenario S1 (conditional branching): manual trigger, a code step
returning `\x7bvalue: true\x7d`, a condition step evaluating
`context.outputs[codeId].value`, and mock basic_llm_chain steps on the
`"true"` and `"false"` branches with prompts `"ok"` and `"no"`. -/
def gS1 : Graph := {
  steps := [
    { id := "1", type := "manual_trigger" },
    { id := "2", type := "code",
      code := some (fun _ _ => Except.ok (Value.obj [("value", Value.bool true)])) },
    { id := "3", type := "condition",
      condition := some (fun _ outs => Except.ok (truthy (propGet (objGet outs "2") "value"))) },
    { id := "4", type := "basic_llm_chain", prompt := some "ok" },
    { id := "5", type := "basic_llm_chain", prompt := some "no" }
  ],
  edges := [
    { sourceId := "1", targetId := "2" },
    { sourceId := "2", targetId := "3" },
    { sourceId := "3", targetId := "4", label := some "true" },
    { sourceId := "3", targetId := "5", label := some "false" }
  ] }

/-- The loop-child code step of scenario S3: `return currentItem * 2`
(reads `context.outputs.currentItem`; on a non-number it would be NaN in JS,
which never happens here because the child only runs with `currentItem` a
number). -/
def childCode : RObj → RObj → Except String Value :=
  fun _ outs =>
    match objGet outs "currentItem" with
    | Value.num n d => Except.ok (Value.num (n * 2) d)
    | _ => Except.ok Value.null

/-- Scenario S3 (loop), parameterized by the loop's `config.input`: manual
trigger, a code step returning `\x7bitems: [1,2,3]\x7d` (step id `"2"`), a loop
step, and a child code step returning `currentItem * 2`. -/
def gS3 (inputPath : String) : Graph := {
  steps := [
    { id := "1", type := "manual_trigger" },
    { id := "2", type := "code",
      code := some (fun _ _ => Except.ok (Value.obj
        [("items", Value.arr [Value.num 1 1, Value.num 2 1, Value.num 3 1])])) },
    { id := "3", type := "loop", input := some inputPath },
    { id := "4", type := "code", code := some childCode }
  ],
  edges := [
    { sourceId := "1", targetId := "2" },
    { sourceId := "2", targetId := "3" },
    { sourceId := "3", targetId := "4" }
  ] }

/-- A directed cycle of pass-through steps reachable from a start step:
S → A → B → A. -/
def gCyclePlain : Graph := {
  steps := [
    { id := "S", type := "manual_trigger" },
    { id := "A", type := "manual_trigger" },
    { id := "B", type := "manual_trigger" }
  ],
  edges := [
    { sourceId := "S", targetId := "A" },
    { sourceId := "A", targetId := "B" },
    { sourceId := "B", targetId := "A" }
  ] }

/-- A directed cycle through branching steps reachable from a start step:
S → A → B → A with A, B condition steps whose condition is `true` and whose
`"true"` edges form the cycle. -/
def gCycleCond : Graph := {
  steps := [
    { id := "S", type := "manual_trigger" },
    { id := "A", type := "condition", condition := some (fun _ _ => Except.ok true) },
    { id := "B", type := "condition", condition := some (fun _ _ => Except.ok true) }
  ],
  edges := [
    { sourceId := "S", targetId := "A" },
    { sourceId := "A", targetId := "B", label := some "true" },
    { sourceId := "B", targetId := "A", label := some "true" }
  ] }

/-- Scenario S2 (switch), parameterized by the value the code step returns
under `v` and by the switch's outgoing edges: trigger, code returning
`\x7bv: value\x7d`, a switch on `context.outputs[codeId].v`, and three
terminal code steps `"4"`, `"5"`, `"6"`. -/
def gS2 (value : Value) (switchEdges : List EdgeDef) : Graph := {
  steps := [
    { id := "1", type := "manual_trigger" },
    { id := "2", type := "code",
      code := some (fun _ _ => Except.ok (Value.obj [("v", value)])) },
    { id := "3", type := "switch",
      expression := some (fun _ outs => Except.ok (propGet (objGet outs "2") "v")) },
    { id := "4", type := "code", code := some (fun _ _ => Except.ok (Value.str "X")) },
    { id := "5", type := "code", code := some (fun _ _ => Except.ok (Value.str "Y")) },
    { id := "6", type := "code", code := some (fun _ _ => Except.ok (Value.str "Z")) }
  ],
  edges := [{ sourceId := "1", targetId := "2" }, { sourceId := "2", targetId := "3" }] ++
    switchEdges }

/-- The S2 case edges: `"a"` → step 4, `"b"` → step 5, `"default"` → step 6. -/
def s2Edges : List EdgeDef :=
  [{ sourceId := "3", targetId := "4", label := some "a" },
   { sourceId := "3", targetId := "5", label := some "b" },
   { sourceId := "3", targetId := "6", label := some "default" }]

/-- Condition workflow whose condition expression throws: trigger, condition
step with a throwing `config.condition`, code steps on the `"true"` branch
(step `"3"`) and the `"false"` branch (step `"4"`). -/
def gCondThrow : Graph := {
  steps := [
    { id := "1", type := "manual_trigger" },
    { id := "2", type := "condition",
      condition := some (fun _ _ => Except.error "boom is not defined") },
    { id := "3", type := "code", code := some (fun _ _ => Except.ok (Value.str "T")) },
    { id := "4", type := "code", code := some (fun _ _ => Except.ok (Value.str "F")) }
  ],
  edges := [
    { sourceId := "1", targetId := "2" },
    { sourceId := "2", targetId := "3", label := some "true" },
    { sourceId := "2", targetId := "4", label := some "false" }
  ] }

/-- Loop workflow whose `config.input` is neither `$`-prefixed nor a key of
the outputs map: trigger, loop with input `"nope"`, and a child code step. -/
def gLoopMissing : Graph := {
  steps := [
    { id := "1", type := "manual_trigger" },
    { id := "2", type := "loop", input := some "nope" },
    { id := "3", type := "code", code := some (fun _ _ => Except.ok (Value.str "child")) }
  ],
  edges := [
    { sourceId := "1", targetId := "2" },
    { sourceId := "2", targetId := "3" }
  ] }

/-- A loop-free diamond: 1 → 2, 1 → 3, 2 → 4, 3 → 4 (step 4 is reachable
along two different edge paths). -/
def gDiamond : Graph := {
  steps := [
    { id := "1", type := "manual_trigger" },
    { id := "2", type := "code", code := some (fun _ _ => Except.ok (Value.num 2 1)) },
    { id := "3", type := "code", code := some (fun _ _ => Except.ok (Value.num 3 1)) },
    { id := "4", type := "code", code := some (fun _ _ => Except.ok (Value.num 4 1)) }
  ],
  edges := [
    { sourceId := "1", targetId := "2" },
    { sourceId := "1", targetId := "3" },
    { sourceId := "2", targetId := "4" },
    { sourceId := "3", targetId := "4" }
  ] }

/-- A two-step chain 1 → 2 (step 1 is a direct predecessor of step 2). -/
def gChain : Graph := {
  steps := [
    { id := "1", type := "manual_trigger" },
    { id := "2", type := "code", code := some (fun _ _ => Except.ok (Value.str "done")) }
  ],
  edges := [{ sourceId := "1", targetId := "2" }] }

/-! ## Webhook gateway (spec-modelled) with HMAC-SHA256

The HTTP endpoint `POST /api/webhooks/\x7bwebhookId\x7d` is exercised by
`tests/feature-tests.js` (which signs the raw JSON body with
`crypto.createHmac("sha256", secret)` and sends the hex digest in
`X-Webhook-Signature`), but its server-side implementation is not among the
sources; it is modelled below from the spec.  SHA-256 itself follows FIPS
180-4 with 32-bit words as naturals reduced mod `2 ^ 32`. -/

/-- Right rotation of a 32-bit word. -/
def rotr32 (n x : Nat) : Nat :=
  ((x >>> n) ||| (x <<< (32 - n))) % 4294967296

/-- Big-endian byte decomposition of `n` into `k` bytes. -/
def bytesBE (k n : Nat) : List Nat :=
  (List.range k).map (fun i => (n >>> (8 * (k - 1 - i))) % 256)

/-- SHA-256 round constants. -/
def K256 : List Nat :=
  [1116352408, 1899447441, 3049323471, 3921009573, 961987163,
   1508970993, 2453635748, 2870763221, 3624381080, 310598401,
   607225278, 1426881987, 1925078388, 2162078206, 2614888103,
   3248222580, 3835390401, 4022224774, 264347078, 604807628,
   770255983, 1249150122, 1555081692, 1996064986, 2554220882,
   2821834349, 2952996808, 3210313671, 3336571891, 3584528711,
   113926993, 338241895, 666307205, 773529912, 1294757372,
   1396182291, 1695183700, 1986661051, 2177026350, 2456956037,
   2730485921, 2820302411, 3259730800, 3345764771, 3516065817,
   3600352804, 4094571909, 275423344, 430227734, 506948616,
   659060556, 883997877, 958139571, 1322822218, 1537002063,
   1747873779, 1955562222, 2024104815, 2227730452, 2361852424,
   2428436474, 2756734187, 3204031479, 3329325298]

/-- SHA-256 initial hash state. -/
def H256 : List Nat :=
  [1779033703, 3144134277, 1013904242, 2773480762,
   1359893119, 2600822924, 528734635, 1541459225]

/-- Merkle-Damgard padding: `0x80`, zeros to 56 mod 64 bytes, then the
message bit length as 8 big-endian bytes. -/
def sha256Pad (msg : List Nat) : List Nat :=
  let len := msg.length
  let z := (64 + 56 - ((len + 1) % 64)) % 64
  msg ++ [128] ++ List.replicate z 0 ++ bytesBE 8 (len * 8)

/-- Big-endian 32-bit words from a byte list (length a multiple of 4). -/
def toWords : List Nat → List Nat
  | b0 :: b1 :: b2 :: b3 :: rest =>
    ((b0 <<< 24) ||| (b1 <<< 16) ||| (b2 <<< 8) ||| b3) :: toWords rest
  | _ => []

/-- Extend 16 message-schedule words to 64. -/
def msgSchedule (w : List Nat) : List Nat :=
  (List.range 48).foldl
    (fun w _ =>
      let i := w.length
      let x15 := w.getD (i - 15) 0
      let x2 := w.getD (i - 2) 0
      let s0 := (rotr32 7 x15) ^^^ (rotr32 18 x15) ^^^ (x15 >>> 3)
      let s1 := (rotr32 17 x2) ^^^ (rotr32 19 x2) ^^^ (x2 >>> 10)
      w ++ [(w.getD (i - 16) 0 + s0 + w.getD (i - 7) 0 + s1) % 4294967296])
    w

/-- One SHA-256 compression round on the state `[a,b,c,d,e,f,g,h]`. -/
def sha256Round (wrd k : Nat) (st : List Nat) : List Nat :=
  match st with
  | [a, b, c, d, e, f, g, h] =>
    let s1 := (rotr32 6 e) ^^^ (rotr32 11 e) ^^^ (rotr32 25 e)
    let ch := (e &&& f) ^^^ ((e ^^^ 4294967295) &&& g)
    let t1 := (h + s1 + ch + k + wrd) % 4294967296
    let s0 := (rotr32 2 a) ^^^ (rotr32 13 a) ^^^ (rotr32 22 a)
    let mj := (a &&& b) ^^^ (a &&& c) ^^^ (b &&& c)
    let t2 := (s0 + mj) % 4294967296
    [(t1 + t2) % 4294967296, a, b, c, (d + t1) % 4294967296, e, f, g]
  | st => st

/-- Compress one 16-word block into the running hash state. -/
def sha256Block (h : List Nat) (block : List Nat) : List Nat :=
  let ws := msgSchedule block
  let st := (List.zip ws K256).foldl (fun st p => sha256Round p.1 p.2 st) h
  (List.zip h st).map (fun p => (p.1 + p.2) % 4294967296)

/-- Split a word list into `n` blocks of 16 words. -/
def blocks16 : Nat → List Nat → List (List Nat)
  | 0, _ => []
  | n + 1, ws => ws.take 16 :: blocks16 n (ws.drop 16)

/-- SHA-256 of a byte list, as 32 bytes. -/
def sha256 (msg : List Nat) : List Nat :=
  let words := toWords (sha256Pad msg)
  let hh := (blocks16 (words.length / 16) words).foldl sha256Block H256
  (hh.map (bytesBE 4)).flatten

/-- Lowercase hex digit. -/
def hexDigit (n : Nat) : Char :=
  Char.ofNat (if n < 10 then 48 + n else 87 + n)

/-- Lowercase hex encoding of a byte list (`digest("hex")`). -/
def toHex (bytes : List Nat) : String :=
  String.mk (bytes.foldr (fun b acc => hexDigit (b / 16) :: hexDigit (b % 16) :: acc) [])

/-- Byte encoding of the ASCII strings the scenarios use (UTF-8 agrees with
code points below 128). -/
def strBytes (s : String) : List Nat :=
  s.data.map Char.toNat

/-- HMAC-SHA256 (RFC 2104) over bytes, block size 64. -/
def hmacSha256 (key msg : List Nat) : List Nat :=
  let k0 := if key.length > 64 then sha256 key else key
  let k64 := k0 ++ List.replicate (64 - k0.length) 0
  sha256 ((k64.map (fun b => b ^^^ 92)) ++ sha256 ((k64.map (fun b => b ^^^ 54)) ++ msg))

/-- `crypto.createHmac("sha256", secret).update(body).digest("hex")`. -/
def hmacSha256Hex (key msg : List Nat) : String :=
  toHex (hmacSha256 key msg)

/-- A webhook HTTP request as the gateway sees it: raw body bytes and the
`X-Webhook-Signature` header, if present. -/
structure WebhookRequest where
  body : List Nat
  signature : Option String

/-- Modelled from the spec: the handler of `POST /api/webhooks/\x7bwebhookId\x7d`
is absent from the sources (only `tests/feature-tests.js` calls it); per spec
section 4.7, once the `webhook_trigger` step with matching `config.webhookId`
is found, a present `config.secret` requires the request to carry
`X-Webhook-Signature` equal to the hex HMAC-SHA256 of the raw body under the
secret; on success the gateway responds `202` and starts a run, otherwise it
responds `401` and creates no run.  The result is the HTTP status and
whether a run was created. -/
def handleWebhook (secret : Option String) (req : WebhookRequest) : Nat × Bool :=
  match secret with
  | none => (202, true)
  | some k =>
    match req.signature with
    | none => (401, false)
    | some sig =>
      if sig = hmacSha256Hex (strBytes k) req.body then (202, true) else (401, false)

/-! ## Run invariants: at-most-once execution and the inputs-view shape -/

/-- The central counting invariant: a step id has a completed StepExecution
row only if it is in the visited set, and then at most one. -/
def InvCount (s : EngSt) : Prop :=
  ∀ sid, countCompleted s.recs sid ≤ (if sid ∈ s.visited then 1 else 0)

/-- Every StepExecution row's recorded input is an inputs view
`\x7b_all: outputsSnapshot\x7d`. -/
def InvInput (recs : List StepRec) : Prop :=
  ∀ r ∈ recs, ∃ o, r.input = [("_all", Value.obj o)]

/-- The run-state invariant carried through the traversal. -/
def StInv (s : EngSt) : Prop :=
  InvCount s ∧ InvInput s.recs

/-- Step-execution rows evolve without changing the step id at any existing
index (rows are only appended or updated in place). -/
def RecsMono (l l2 : List StepRec) : Prop :=
  ∀ j r, l.get? j = some r → ∃ r2, l2.get? j = some r2 ∧ r2.stepId = r.stepId

theorem recsMono_refl (l : List StepRec) : RecsMono l l :=
  fun _ r h => ⟨r, h, rfl⟩

theorem recsMono_trans {l1 l2 l3 : List StepRec} (h1 : RecsMono l1 l2) (h2 : RecsMono l2 l3) :
    RecsMono l1 l3 := by
  intro j r h
  obtain ⟨r2, hg, hs⟩ := h1 j r h
  obtain ⟨r3, hg3, hs3⟩ := h2 j r2 hg
  exact ⟨r3, hg3, hs3.trans hs⟩

theorem recsMono_append (l : List StepRec) (r : StepRec) : RecsMono l (l ++ [r]) := by
  intro j rr h
  refine ⟨rr, ?_, rfl⟩
  rw [List.get?_append]
  · exact h
  · exact (List.get?_eq_some.mp h).1

theorem updRec_get? (f : StepRec → StepRec) :
    ∀ (l : List StepRec) (i j : Nat),
      (updRec f l i).get? j = if i = j then (l.get? j).map f else l.get? j := by
  intro l
  induction l with
  | nil => intro i j; cases i <;> cases j <;> simp [updRec]
  | cons r rs ih =>
    intro i j
    cases i with
    | zero =>
      cases j with
      | zero => simp [updRec]
      | succ j => simp [updRec]
    | succ i =>
      cases j with
      | zero => simp [updRec]
      | succ j => simpa [updRec] using ih i j

theorem recsMono_updRec (f : StepRec → StepRec) (hf : ∀ r, (f r).stepId = r.stepId)
    (l : List StepRec) (i : Nat) : RecsMono l (updRec f l i) := by
  intro j r h
  rw [updRec_get?]
  by_cases hij : i = j
  · rw [if_pos hij, h]
    exact ⟨f r, rfl, hf r⟩
  · rw [if_neg hij]
    exact ⟨r, h, rfl⟩

theorem countCompleted_append (l l2 : List StepRec) (sid : String) :
    countCompleted (l ++ l2) sid = countCompleted l sid + countCompleted l2 sid := by
  simp [countCompleted, List.filter_append]

theorem countCompleted_running (l : List StepRec) (sid nid : String) (inp : RObj) :
    countCompleted (l ++ [{ stepId := nid, status := "running", input := inp }]) sid =
      countCompleted l sid := by
  rw [countCompleted_append]
  simp [countCompleted]

/-- `countCompleted` as a `countP`. -/
theorem countCompleted_eq_countP (l : List StepRec) (sid : String) :
    countCompleted l sid = l.countP (fun r => r.stepId == sid && r.status == "completed") :=
  (List.countP_eq_length_filter _ _).symm

/-- Point updates only change the contribution of the touched index. -/
theorem countCompleted_updRec_le (sid : String) (f : StepRec → StepRec)
    (hf : ∀ r, ((f r).stepId == sid && (f r).status == "completed") = true →
               (r.stepId == sid && r.status == "completed") = true) :
    ∀ (l : List StepRec) (i : Nat),
      countCompleted (updRec f l i) sid ≤ countCompleted l sid := by
  intro l
  induction l with
  | nil => intro i; simp [updRec]
  | cons r rs ih =>
    intro i
    cases i with
    | zero =>
      simp only [updRec, countCompleted_eq_countP, List.countP_cons]
      by_cases hfr : ((f r).stepId == sid && (f r).status == "completed") = true
      · rw [hfr, hf r hfr]
      · simp only [Bool.not_eq_true] at hfr
        rw [hfr]
        simp only [Bool.false_eq_true, if_false]
        split <;> omega
    | succ i =>
      have := ih i
      simp only [updRec, countCompleted_eq_countP, List.countP_cons] at *
      omega

theorem countCompleted_failRec_le (l : List StepRec) (i : Nat) (msg sid : String) :
    countCompleted (failRec l i msg) sid ≤ countCompleted l sid := by
  apply countCompleted_updRec_le
  intro r h
  simp at h

theorem countCompleted_completeRec_other (v : Value) (nid sid : String) (hne : sid ≠ nid) :
    ∀ (l : List StepRec) (i : Nat), (∀ r, l.get? i = some r → r.stepId = nid) →
      countCompleted (completeRec l i v) sid = countCompleted l sid := by
  intro l
  induction l with
  | nil => intro i _; simp [completeRec, updRec]
  | cons r rs ih =>
    intro i hi
    cases i with
    | zero =>
      have hr : r.stepId = nid := hi r rfl
      simp only [completeRec, updRec, countCompleted_eq_countP, List.countP_cons]
      have h1 : (r.stepId == sid) = false := by
        simp [hr]
        exact fun h => hne h.symm
      simp [h1]
    | succ i =>
      have := ih i (fun r2 h => hi r2 h)
      simp only [completeRec, updRec, countCompleted_eq_countP, List.countP_cons] at *
      omega

theorem countCompleted_completeRec_le_succ (l : List StepRec) (i : Nat) (v : Value)
    (sid : String) :
    countCompleted (completeRec l i v) sid ≤ countCompleted l sid + 1 := by
  induction l generalizing i with
  | nil => simp [completeRec, updRec, countCompleted]
  | cons r rs ih =>
    cases i with
    | zero =>
      simp only [completeRec, updRec, countCompleted_eq_countP, List.countP_cons]
      split <;> split <;> omega
    | succ i =>
      have := ih i
      simp only [completeRec, updRec, countCompleted_eq_countP, List.countP_cons] at *
      omega

theorem updRec_mem (f : StepRec → StepRec) :
    ∀ (l : List StepRec) (i : Nat) (r : StepRec), r ∈ updRec f l i →
      r ∈ l ∨ ∃ r0, r0 ∈ l ∧ r = f r0 := by
  intro l
  induction l with
  | nil => intro i r h; simp [updRec] at h
  | cons r0 rs ih =>
    intro i r h
    cases i with
    | zero =>
      simp only [updRec, List.mem_cons] at h
      rcases h with h | h
      · exact Or.inr ⟨r0, List.mem_cons_self r0 rs, h⟩
      · exact Or.inl (List.mem_cons_of_mem r0 h)
    | succ i =>
      simp only [updRec, List.mem_cons] at h
      rcases h with h | h
      · exact Or.inl (h ▸ List.mem_cons_self r0 rs)
      · rcases ih i r h with h2 | ⟨rr, hrr, he⟩
        · exact Or.inl (List.mem_cons_of_mem r0 h2)
        · exact Or.inr ⟨rr, List.mem_cons_of_mem r0 hrr, he⟩

theorem invInput_updRec (f : StepRec → StepRec) (hf : ∀ r, (f r).input = r.input)
    (l : List StepRec) (i : Nat) (h : InvInput l) : InvInput (updRec f l i) := by
  intro r hr
  rcases updRec_mem f l i r hr with hm | ⟨r0, hr0, he⟩
  · exact h r hm
  · obtain ⟨o, ho⟩ := h r0 hr0
    exact ⟨o, by rw [he, hf r0, ho]⟩

theorem invInput_failRec (l : List StepRec) (i : Nat) (msg : String) (h : InvInput l) :
    InvInput (failRec l i msg) :=
  invInput_updRec (fun r => { r with status := "failed", error := some msg })
    (fun _ => rfl) l i h

theorem invInput_completeRec (l : List StepRec) (i : Nat) (v : Value) (h : InvInput l) :
    InvInput (completeRec l i v) :=
  invInput_updRec (fun r => { r with status := "completed", output := some v })
    (fun _ => rfl) l i h

theorem invInput_append (l : List StepRec) (nid : String) (outs : RObj) (h : InvInput l) :
    InvInput (l ++ [{ stepId := nid, status := "running", input := getNodeInputs nid outs }]) := by
  intro r hr
  rcases List.mem_append.mp hr with hm | hm
  · exact h r hm
  · simp at hm
    exact ⟨outs, by rw [hm]; rfl⟩

/-- What any dispatch (also a throwing one) guarantees about the context:
the state invariant holds afterwards, rows evolve monotonically, and the
visited set only grows. -/
def StepAnyRel (s s1 : EngSt) : Prop :=
  StInv s1 ∧ RecsMono s.recs s1.recs ∧ (∀ x, x ∈ s.visited → x ∈ s1.visited)

/-- What a normal (non-throwing) dispatch additionally guarantees: the call
path is restored, and no element of the caller's path has been newly
visited. -/
def StepOkRel (s s1 : EngSt) : Prop :=
  StepAnyRel s s1 ∧ s1.path = s.path ∧
    (∀ x, x ∈ s1.visited → (x ∈ s.visited ∨ ¬ x ∈ s.path))

theorem stepAnyRel_refl (s : EngSt) (hs : StInv s) : StepAnyRel s s :=
  ⟨hs, recsMono_refl _, fun _ h => h⟩

theorem stepAnyRel_trans {s s1 s2 : EngSt} (h1 : StepAnyRel s s1) (h2 : StepAnyRel s1 s2) :
    StepAnyRel s s2 :=
  ⟨h2.1, recsMono_trans h1.2.1 h2.2.1, fun x hx => h2.2.2 x (h1.2.2 x hx)⟩

theorem stepOkRel_refl (s : EngSt) (hs : StInv s) : StepOkRel s s :=
  ⟨stepAnyRel_refl s hs, rfl, fun x hx => Or.inl hx⟩

theorem stepOkRel_trans {s s1 s2 : EngSt} (h1 : StepOkRel s s1) (h2 : StepOkRel s1 s2) :
    StepOkRel s s2 := by
  refine ⟨stepAnyRel_trans h1.1 h2.1, h2.2.1.trans h1.2.1, ?_⟩
  intro x hx
  rcases h2.2.2 x hx with hx1 | hnp
  · exact h1.2.2 x hx1
  · rw [h1.2.1] at hnp
    exact Or.inr hnp

/-- Postcondition of a dispatch that shares the caller's context. -/
def SpecC {α : Type} (s : EngSt) (p : Except String α × EngSt) : Prop :=
  StepAnyRel s p.2 ∧ (p.1.isOk = true → StepOkRel s p.2)

/-- Postcondition of the per-item loop of a `loop` step: the no-new-visits
guarantee is relative to the loop's call path (each iteration context copies
it), and nothing is claimed about the returned context's scoped fields
(the loop node restores them from its own context). -/
def SpecI {α : Type} (s : EngSt) (basePath : List String) (p : Except String α × EngSt) : Prop :=
  StepAnyRel s p.2 ∧
    (p.1.isOk = true → ∀ x, x ∈ p.2.visited → (x ∈ s.visited ∨ ¬ x ∈ basePath))

theorem seqRun_spec (exec1 : ExecFun)
    (H : ∀ t s, StInv s → SpecC s (exec1 t s)) :
    ∀ (ts : List String) (s : EngSt), StInv s → SpecC s (seqRun exec1 ts s) := by
  intro ts
  induction ts with
  | nil =>
    intro s hs
    exact ⟨stepAnyRel_refl s hs, fun _ => stepOkRel_refl s hs⟩
  | cons t ts ih =>
    intro s hs
    simp only [seqRun]
    rcases h1 : exec1 t s with ⟨r1, s1⟩
    have spec1 := H t s hs
    rw [h1] at spec1
    cases r1 with
    | error e =>
      exact ⟨spec1.1, by intro h; simp [Except.isOk, Except.toBool] at h⟩
    | ok v =>
      have hok1 : StepOkRel s s1 := spec1.2 rfl
      have spec2 := ih s1 spec1.1.1
      refine ⟨stepAnyRel_trans spec1.1 spec2.1, fun hok => ?_⟩
      exact stepOkRel_trans hok1 (spec2.2 hok)

theorem collectRun_spec (exec1 : ExecFun)
    (H : ∀ t s, StInv s → SpecC s (exec1 t s)) :
    ∀ (ts : List String) (s : EngSt), StInv s → SpecC s (collectRun exec1 ts s) := by
  intro ts
  induction ts with
  | nil =>
    intro s hs
    exact ⟨stepAnyRel_refl s hs, fun _ => stepOkRel_refl s hs⟩
  | cons t ts ih =>
    intro s hs
    simp only [collectRun]
    split
    · rename_i e s1 heq
      have spec1 := H t s hs
      rw [heq] at spec1
      exact ⟨spec1.1, by intro h; simp [Except.isOk, Except.toBool] at h⟩
    · rename_i v s1 heq
      have spec1 := H t s hs
      rw [heq] at spec1
      have hok1 : StepOkRel s s1 := spec1.2 rfl
      split
      · rename_i e s2 heq2
        have spec2 := ih s1 spec1.1.1
        rw [heq2] at spec2
        exact ⟨stepAnyRel_trans spec1.1 spec2.1,
               by intro h; simp [Except.isOk, Except.toBool] at h⟩
      · rename_i vs s2 heq2
        have spec2 := ih s1 spec1.1.1
        rw [heq2] at spec2
        exact ⟨stepAnyRel_trans spec1.1 spec2.1,
               fun _ => stepOkRel_trans hok1 (spec2.2 rfl)⟩

theorem iterRun_spec (exec1 : ExecFun)
    (H : ∀ t s, StInv s → SpecC s (exec1 t s))
    (targets : List String) (baseOuts : RObj) (basePath : List String) :
    ∀ (items : List Value) (s : EngSt), StInv s →
      SpecI s basePath (iterRun exec1 targets baseOuts basePath items s) := by
  intro items
  induction items with
  | nil =>
    intro s hs
    exact ⟨stepAnyRel_refl s hs, fun _ x hx => Or.inl hx⟩
  | cons it rest ih =>
    intro s hs
    simp only [iterRun]
    have hs1 : StInv { s with outs := setKey baseOuts "currentItem" it, path := basePath } := by
      obtain ⟨hc, hi⟩ := hs
      exact ⟨fun sid => hc sid, hi⟩
    have hbase : StepAnyRel s { s with outs := setKey baseOuts "currentItem" it, path := basePath } :=
      ⟨hs1, recsMono_refl _, fun x hx => hx⟩
    split
    · rename_i e s1 heq
      have spec1 := collectRun_spec exec1 H targets _ hs1
      rw [heq] at spec1
      exact ⟨stepAnyRel_trans hbase spec1.1,
             by intro h; simp [Except.isOk, Except.toBool] at h⟩
    · rename_i rs s1 heq
      have spec1 := collectRun_spec exec1 H targets _ hs1
      rw [heq] at spec1
      have hok1 := spec1.2 rfl
      have hany0 : StepAnyRel s s1 := stepAnyRel_trans hbase spec1.1
      split
      · rename_i e s2 heq2
        have spec2 := ih s1 spec1.1.1
        rw [heq2] at spec2
        exact ⟨stepAnyRel_trans hany0 spec2.1,
               by intro h; simp [Except.isOk, Except.toBool] at h⟩
      · rename_i rss s2 heq2
        have spec2 := ih s1 spec1.1.1
        rw [heq2] at spec2
        refine ⟨stepAnyRel_trans hany0 spec2.1, fun _ x hx => ?_⟩
        rcases spec2.2 rfl x hx with hx1 | hnp
        · rcases hok1.2.2 x hx1 with hx0 | hnp0
          · exact Or.inl hx0
          · exact Or.inr hnp0
        · exact Or.inr hnp

theorem specC_id {α : Type} (s : EngSt) (hs : StInv s) (r : Except String α) :
    SpecC s (r, s) :=
  ⟨stepAnyRel_refl s hs, fun _ => stepOkRel_refl s hs⟩

theorem specC_err {α : Type} {s s1 : EngSt} (h1 : StepAnyRel s s1) (e : String) :
    SpecC s ((Except.error e : Except String α), s1) :=
  ⟨h1, by intro h; simp [Except.isOk, Except.toBool] at h⟩

theorem specC_ok {α : Type} {s s1 : EngSt} (h1 : StepOkRel s s1) (v : α) :
    SpecC s (Except.ok v, s1) :=
  ⟨h1.1, fun _ => h1⟩

theorem runCase_spec (exec1 : ExecFun)
    (H : ∀ t s, StInv s → SpecC s (exec1 t s))
    (g : Graph) (st : StepDef) (nid : String) :
    ∀ s, StInv s → SpecC s (runCase exec1 g st nid s) := by
  intro s hs
  rw [runCase.eq_def]
  split
  · exact specC_id s hs _
  · exact specC_id s hs _
  · exact specC_id s hs _
  · exact specC_id s hs _
  · exact specC_id s hs _
  · exact specC_id s hs _
  · exact specC_id s hs _
  · -- code
    split
    · exact specC_id s hs _
    · split
      · exact specC_id s hs _
      · exact specC_id s hs _
  · -- condition
    dsimp only
    split
    · rename_i s1 heq
      have spec := seqRun_spec exec1 H
        (List.map (fun e => e.targetId)
          (List.filter
            (fun e =>
              evaluateCondition st s.outs && e.label == some "true" ||
                !evaluateCondition st s.outs && e.label == some "false")
            (outEdges g nid))) s hs
      rw [heq] at spec
      exact specC_ok (spec.2 rfl) _
    · rename_i e s1 heq
      have spec := seqRun_spec exec1 H
        (List.map (fun e => e.targetId)
          (List.filter
            (fun e =>
              evaluateCondition st s.outs && e.label == some "true" ||
                !evaluateCondition st s.outs && e.label == some "false")
            (outEdges g nid))) s hs
      rw [heq] at spec
      exact specC_err spec.1 e
  · -- switch
    dsimp only
    split
    · exact specC_err (stepAnyRel_refl s hs) _
    · exact specC_err (stepAnyRel_refl s hs) _
    · split
      · exact specC_id s hs _
      · rename_i edge hedge
        split
        · rename_i s1 heq
          have spec := H edge.targetId s hs
          rw [heq] at spec
          exact specC_ok (spec.2 rfl) _
        · rename_i er s1 heq
          have spec := H edge.targetId s hs
          rw [heq] at spec
          exact specC_err spec.1 er
  · -- loop
    dsimp only
    split
    · rename_i xs hitems
      split
      · rename_i e s1 heq
        have spec := iterRun_spec exec1 H
          (List.map (fun e => e.targetId) (outEdges g nid)) s.outs s.path xs s hs
        rw [heq] at spec
        refine specC_err ?_ e
        exact ⟨spec.1.1, spec.1.2.1, spec.1.2.2⟩
      · rename_i rss s1 heq
        have spec := iterRun_spec exec1 H
          (List.map (fun e => e.targetId) (outEdges g nid)) s.outs s.path xs s hs
        rw [heq] at spec
        refine specC_ok ⟨?_, ?_, ?_⟩ _
        · exact ⟨spec.1.1, spec.1.2.1, spec.1.2.2⟩
        · rfl
        · exact spec.2 rfl
    · exact specC_err (stepAnyRel_refl s hs) _
  · -- filter
    split
    · split
      · exact specC_id s hs _
      · exact specC_id s hs _
    · exact specC_id s hs _
  · exact specC_id s hs _
  · exact specC_id s hs _

theorem stInv_failRec (s1 : EngSt) (i : Nat) (msg : String) (p : List String) (h : StInv s1) :
    StInv { s1 with recs := failRec s1.recs i msg, path := p } := by
  constructor
  · intro sid
    calc countCompleted (failRec s1.recs i msg) sid
        ≤ countCompleted s1.recs sid := countCompleted_failRec_le s1.recs i msg sid
      _ ≤ _ := h.1 sid
  · exact invInput_failRec _ _ _ h.2

theorem stepAnyRel_failRec (s1 : EngSt) (i : Nat) (msg : String) (p : List String)
    (h : StInv s1) :
    StepAnyRel s1 { s1 with recs := failRec s1.recs i msg, path := p } :=
  ⟨stInv_failRec s1 i msg p h,
   recsMono_updRec (fun r => { r with status := "failed", error := some msg })
     (fun _ => rfl) s1.recs i,
   fun _ hx => hx⟩

theorem stInv_appendRunning (s : EngSt) (nid : String) (h : StInv s) :
    StInv { s with recs := s.recs ++
      [{ stepId := nid, status := "running", input := getNodeInputs nid s.outs }] } := by
  constructor
  · intro sid
    rw [countCompleted_running]
    exact h.1 sid
  · exact invInput_append _ _ _ h.2

theorem execNode_spec (g : Graph) :
    ∀ (fuel : Nat) (nid : String) (s : EngSt), StInv s → SpecC s (execNode g fuel nid s) := by
  intro fuel
  induction fuel with
  | zero =>
    intro nid s hs
    exact specC_err (stepAnyRel_refl s hs) _
  | succ f ih =>
    intro nid s hs
    simp only [execNode]
    split
    · exact specC_id s hs _
    · split
      · exact specC_id s hs _
      · rename_i hnvB hst st hfind
        split
        · -- cycle throw
          refine specC_err ?_ _
          have h0 := stInv_appendRunning s nid hs
          refine ⟨?_, ?_, fun x hx => hx⟩
          · exact (stInv_failRec _ _ _ _ h0)
          · exact recsMono_trans (recsMono_append _ _)
              (recsMono_updRec
                (fun r => { r with status := "failed", error := some (cyclePathMsg s.path nid) })
                (fun _ => rfl) _ _)
        · -- no cycle: dispatch the handler
          rename_i hnpB
          have h0 := stInv_appendRunning s nid hs
          have h1 : StInv { outs := s.outs, path := s.path ++ [nid], visited := s.visited, recs := s.recs ++ [{ stepId := nid, status := "running", input := getNodeInputs nid s.outs }] } :=
            h0
          have hrel0 : StepAnyRel s { outs := s.outs, path := s.path ++ [nid], visited := s.visited, recs := s.recs ++ [{ stepId := nid, status := "running", input := getNodeInputs nid s.outs }] } :=
            ⟨h1, recsMono_append _ _, fun x hx => hx⟩
          split
          · -- runCase threw
            rename_i e s2 hcase
            have spec := runCase_spec (execNode g f) ih g st nid _ h1
            rw [hcase] at spec
            refine specC_err ?_ _
            exact stepAnyRel_trans (stepAnyRel_trans hrel0 spec.1)
              (stepAnyRel_failRec s2 s.recs.length e _ spec.1.1)
          · -- runCase returned a value: commit
            rename_i v s2 hcase
            have spec := runCase_spec (execNode g f) ih g st nid _ h1
            rw [hcase] at spec
            have hokrel := spec.2 rfl
            have hnv : ¬ nid ∈ s.visited := by
              simp only [Bool.not_eq_true] at hnvB
              intro hmem
              have hc : s.visited.contains nid = true := List.elem_iff.mpr hmem
              rw [hnvB] at hc
              simp at hc
            have hnp : ¬ nid ∈ s.path := by
              simp only [Bool.not_eq_true] at hnpB
              intro hmem
              have hc : s.path.contains nid = true := List.elem_iff.mpr hmem
              rw [hnpB] at hc
              simp at hc
            have hpath2 : s2.path = s.path ++ [nid] := hokrel.2.1
            have hvis2 : ∀ x, x ∈ s2.visited → (x ∈ s.visited ∨ ¬ x ∈ s.path ++ [nid]) :=
              hokrel.2.2
            have hnv2 : ¬ nid ∈ s2.visited := by
              intro hmem
              rcases hvis2 nid hmem with hm | hm
              · exact hnv hm
              · exact hm (List.mem_append_right _ (List.mem_singleton_self nid))
            have hrec2 : ∃ r2, s2.recs.get? s.recs.length = some r2 ∧ r2.stepId = nid := by
              have hget : (s.recs ++ [({ stepId := nid, status := "running", input := getNodeInputs nid s.outs } : StepRec)]).get? s.recs.length = some ({ stepId := nid, status := "running", input := getNodeInputs nid s.outs } : StepRec) :=
                List.get?_concat_length _ _
              obtain ⟨r2, hg, hsid2⟩ := spec.1.2.1 s.recs.length _ hget
              exact ⟨r2, hg, hsid2⟩
            -- invariant at the committed state
            have hinv3 : StInv
                { s2 with
                  outs := setKey s2.outs nid v
                  visited := s2.visited ++ [nid]
                  path := s2.path.dropLast
                  recs := completeRec s2.recs s.recs.length v } := by
              constructor
              · intro sid
                show countCompleted (completeRec s2.recs s.recs.length v) sid ≤
                  if sid ∈ s2.visited ++ [nid] then 1 else 0
                have hbase : countCompleted s2.recs sid ≤ if sid ∈ s2.visited then 1 else 0 :=
                  spec.1.1.1 sid
                by_cases hsid : sid = nid
                · rw [hsid] at hbase ⊢
                  rw [if_neg hnv2] at hbase
                  have h2 := countCompleted_completeRec_le_succ s2.recs s.recs.length v nid
                  have h3 : nid ∈ s2.visited ++ [nid] :=
                    List.mem_append_right _ (List.mem_singleton_self nid)
                  rw [if_pos h3]
                  omega
                · obtain ⟨r2, hg, hstep⟩ := hrec2
                  have heqc := countCompleted_completeRec_other v nid sid hsid s2.recs
                    s.recs.length (fun r hr => by rw [hg] at hr; cases hr; exact hstep)
                  rw [heqc]
                  by_cases hm2 : sid ∈ s2.visited
                  · rw [if_pos hm2] at hbase
                    rw [if_pos (List.mem_append_left _ hm2)]
                    exact hbase
                  · rw [if_neg hm2] at hbase
                    omega
              · show InvInput (completeRec s2.recs s.recs.length v)
                exact invInput_completeRec _ _ _ spec.1.1.2
            have hrel3 : StepOkRel s
                { s2 with
                  outs := setKey s2.outs nid v
                  visited := s2.visited ++ [nid]
                  path := s2.path.dropLast
                  recs := completeRec s2.recs s.recs.length v } := by
              refine ⟨⟨hinv3, ?_, ?_⟩, ?_, ?_⟩
              · show RecsMono s.recs (completeRec s2.recs s.recs.length v)
                refine recsMono_trans (recsMono_append _ _) (recsMono_trans spec.1.2.1 ?_)
                exact recsMono_updRec
                  (fun r => { r with status := "completed", output := some v })
                  (fun _ => rfl) _ _
              · intro x hx
                exact List.mem_append_left _ (spec.1.2.2 x hx)
              · show s2.path.dropLast = s.path
                rw [hpath2]
                exact List.dropLast_concat
              · intro x hx
                rcases List.mem_append.mp hx with hx2 | hx2
                · rcases hvis2 x hx2 with hm | hm
                  · exact Or.inl hm
                  · exact Or.inr (fun hc => hm (List.mem_append_left _ hc))
                · rw [List.mem_singleton] at hx2
                  subst hx2
                  exact Or.inr hnp
            split
            · -- branching kind: done
              exact specC_ok hrel3 _
            · -- dispatch outgoing edges
              split
              · rename_i s4 hseq
                have spec4 := seqRun_spec (execNode g f) ih
                  ((outEdges g nid).map (fun e => e.targetId)) _ hinv3
                rw [hseq] at spec4
                exact specC_ok (stepOkRel_trans hrel3 (spec4.2 rfl)) _
              · rename_i e s4 hseq
                have spec4 := seqRun_spec (execNode g f) ih
                  ((outEdges g nid).map (fun e => e.targetId)) _ hinv3
                rw [hseq] at spec4
                refine specC_err ?_ _
                exact stepAnyRel_trans (stepAnyRel_trans hrel3.1 spec4.1)
                  (stepAnyRel_failRec s4 s.recs.length e _ spec4.1.1)

/-- The invariant holds of every run outcome: for any fuel and any workflow,
no step id has more than one completed StepExecution row. -/
theorem runWorkflow_at_most_once (fuel : Nat) (g : Graph) (sid : String) :
    countCompleted (runWorkflow fuel g).recs sid ≤ 1 := by
  have hs0 : StInv { outs := [], path := [], visited := [], recs := [] } := by
    constructor
    · intro sd
      simp [countCompleted]
    · intro r hr
      simp at hr
  have spec := seqRun_spec (execNode g fuel)
    (fun t s hs => execNode_spec g fuel t s hs)
    ((startSteps g).map (fun st => st.id)) _ hs0
  rcases hrun : seqRun (execNode g fuel) ((startSteps g).map (fun st => st.id))
      { outs := [], path := [], visited := [], recs := [] } with ⟨r, sEnd⟩
  rw [hrun] at spec
  have hthis : countCompleted sEnd.recs sid ≤ if sid ∈ sEnd.visited then 1 else 0 :=
    spec.1.1.1 sid
  have hcount : countCompleted sEnd.recs sid ≤ 1 := by
    split at hthis <;> omega
  unfold runWorkflow
  dsimp only
  rw [hrun]
  cases r with
  | ok _ => exact hcount
  | error e => exact hcount

/-- The recorded input of every StepExecution row of every run is the inputs
view `\x7b_all: outputsSnapshot\x7d`. -/
theorem runWorkflow_inputs_shape (fuel : Nat) (g : Graph) :
    ∀ r ∈ (runWorkflow fuel g).recs, ∃ o, r.input = [("_all", Value.obj o)] := by
  have hs0 : StInv { outs := [], path := [], visited := [], recs := [] } := by
    constructor
    · intro sd
      simp [countCompleted]
    · intro r hr
      simp at hr
  have spec := seqRun_spec (execNode g fuel)
    (fun t s hs => execNode_spec g fuel t s hs)
    ((startSteps g).map (fun st => st.id)) _ hs0
  rcases hrun : seqRun (execNode g fuel) ((startSteps g).map (fun st => st.id))
      { outs := [], path := [], visited := [], recs := [] } with ⟨r, sEnd⟩
  rw [hrun] at spec
  have hshape : InvInput sEnd.recs := spec.1.1.2
  unfold runWorkflow
  dsimp only
  rw [hrun]
  cases r with
  | ok _ => exact hshape
  | error e => exact hshape

theorem condLabel_filter (c : Bool) (es : List EdgeDef) :
    es.filter (fun e => (c && e.label == some "true") || (!c && e.label == some "false")) =
    es.filter (fun e => e.label == some (if c then "true" else "false")) := by
  apply List.filter_congr
  intro e _
  cases c <;> simp

theorem runCase_condition (exec1 : ExecFun) (g : Graph) (st : StepDef) (nid : String)
    (s : EngSt) (htype : st.type = "condition") :
    runCase exec1 g st nid s =
      (match seqRun exec1
          (((outEdges g nid).filter
            (fun e => e.label == some (if evaluateCondition st s.outs then "true" else "false"))).map
            (fun e => e.targetId)) s with
       | (Except.ok _, s1) =>
         (Except.ok (Value.obj [("condition", Value.bool (evaluateCondition st s.outs)),
                               ("result", Value.bool (evaluateCondition st s.outs))]), s1)
       | (Except.error e, s1) => (Except.error e, s1)) := by
  rw [runCase.eq_def, htype]
  dsimp only
  rw [condLabel_filter]
  rfl

theorem runCase_switch (exec1 : ExecFun) (g : Graph) (st : StepDef) (nid : String)
    (s : EngSt) (htype : st.type = "switch")
    (hnn : evaluateSwitchExpression st s.outs ≠ Value.null)
    (hnu : evaluateSwitchExpression st s.outs ≠ Value.undef) :
    runCase exec1 g st nid s =
      (match ((outEdges g nid).find?
            (fun e => e.label == some (jsToString (evaluateSwitchExpression st s.outs)))).orElse
          (fun _ => (outEdges g nid).find? (fun e => e.label == some "default")) with
       | none => (Except.ok (Value.obj [("switchValue", evaluateSwitchExpression st s.outs)]), s)
       | some e =>
         match exec1 e.targetId s with
         | (Except.ok _, s1) =>
           (Except.ok (Value.obj [("switchValue", evaluateSwitchExpression st s.outs)]), s1)
         | (Except.error er, s1) => (Except.error er, s1)) := by
  rw [runCase.eq_def, htype]
  dsimp only
  cases hsv : evaluateSwitchExpression st s.outs with
  | undef => exact absurd hsv hnu
  | null => exact absurd hsv hnn
  | bool b => rfl
  | num n d => rfl
  | str s2 => rfl
  | arr xs => rfl
  | obj fs => rfl

theorem hasKey_false_objGet (m : RObj) (k : String) (h : hasKey m k = false) :
    objGet m k = Value.undef := by
  unfold objGet
  have hn : m.find? (fun p => p.1 == k) = none := by
    rw [List.find?_eq_none]
    intro p hp
    simp [hasKey] at h
    simp
    exact h p.1 p.2 hp
  rw [hn]

theorem runCase_loop_missing (exec1 : ExecFun) (g : Graph) (st : StepDef) (nid : String)
    (s : EngSt) (htype : st.type = "loop")
    (hnd : strStartsWith (st.input.getD "") "$" = false)
    (hnk : hasKey s.outs (st.input.getD "") = false) :
    runCase exec1 g st nid s = (Except.ok (Value.arr []), s) := by
  rw [runCase.eq_def, htype]
  dsimp only
  have hobj := hasKey_false_objGet s.outs (st.input.getD "") hnk
  simp only [hnd, hobj]
  rfl

theorem evaluateCondition_error (st : StepDef) (outs : RObj)
    (fn : RObj → RObj → Except String Bool) (e : String)
    (hc : st.condition = some fn) (he : fn (getNodeInputs st.id outs) outs = Except.error e) :
    evaluateCondition st outs = false := by
  simp [evaluateCondition, hc, he]

theorem grabBody_closed : ∀ (cs rest : List Char), (∀ c ∈ cs, c ≠ '}') →
    grabBody (cs ++ '}' :: '}' :: rest) = some (cs, rest) := by
  intro cs
  induction cs with
  | nil => intro rest _; simp [grabBody]
  | cons c cs ih =>
    intro rest h
    have hc : c ≠ '}' := h c (List.mem_cons_self c cs)
    have hrec := ih rest (fun x hx => h x (List.mem_cons_of_mem c hx))
    simp only [List.cons_append, grabBody, if_neg hc, List.append_eq, hrec]

theorem scanTmpl_nil (m : RObj) : ∀ f, scanTmpl m f [] = [] := by
  intro f
  cases f <;> rfl

theorem processTemplate_single (m : RObj) (p : String) (hne : p ≠ "")
    (hnb : ∀ c ∈ p.data, c ≠ '}') :
    processTemplate ("\x7b\x7b" ++ p ++ "\x7d\x7d") m =
      (match getInputValue m (strTrim p) with
       | Value.undef => "\x7b\x7b" ++ p ++ "\x7d\x7d"
       | v => jsToString v) := by
  obtain ⟨cs⟩ := p
  have hcs : cs ≠ [] := by
    intro h
    exact hne (by rw [h])
  have hdata : ("\x7b\x7b" ++ String.mk cs ++ "\x7d\x7d").data =
      '{' :: '{' :: (cs ++ ['}', '}']) := by
    simp [String.data_append]
  unfold processTemplate
  rw [hdata]
  have hlen : ('{' :: '{' :: (cs ++ ['}', '}'])).length = cs.length + 4 := by
    simp
  rw [hlen]
  have hgrab : grabBody (cs ++ '}' :: '}' :: ([] : List Char)) = some (cs, []) :=
    grabBody_closed cs [] hnb
  have hempty : cs.isEmpty = false := by
    cases cs with
    | nil => exact absurd rfl hcs
    | cons a l => rfl
  show String.mk (scanTmpl m (cs.length + 3 + 1) ('{' :: '{' :: (cs ++ ['}', '}']))) = _
  rw [scanTmpl]
  rw [hgrab]
  simp only [hempty, Bool.false_eq_true, if_false]
  cases hGI : getInputValue m (strTrim (String.mk cs)) with
  | undef =>
    rw [scanTmpl_nil]
    show String.mk ('{' :: '{' :: (cs ++ ['}', '}'])) = _
    rw [← hdata]
  | null => rw [scanTmpl_nil]; simp
  | bool b => rw [scanTmpl_nil]; simp
  | num n d => rw [scanTmpl_nil]; simp
  | str s2 => rw [scanTmpl_nil]; simp
  | arr xs => rw [scanTmpl_nil]; simp
  | obj fs => rw [scanTmpl_nil]; simp

theorem getInputValue_all (m : RObj) : getInputValue m "_all" = Value.obj m := rfl

theorem getInputValue_strip (m : RObj) (p : String) (hne : p ≠ "")
    (hns : strStartsWith p "$" = false) :
    getInputValue m ("$" ++ p) = getInputValue m p := by
  obtain ⟨cs⟩ := p
  show getInputValue m ⟨'$' :: cs⟩ = getInputValue m ⟨cs⟩
  unfold getInputValue
  have hne2 : (⟨'$' :: cs⟩ : String) ≠ "" := by simp [String.ext_iff]
  rw [if_neg hne2, if_neg hne]
  have hsw : strStartsWith ⟨'$' :: cs⟩ "$" = true := by
    simp [strStartsWith, List.isPrefixOf]
  rw [hsw, hns]
  simp only [Bool.false_eq_true, if_false, if_true]
  rfl

/-! ## Claims -/

/-- C1: for every run containing a condition step, the engine evaluates
`config.condition` as a boolean and dispatches exactly the outgoing edges
whose label is `"true"` when the condition is true and `"false"` when it is
false, pruning all other outgoing edges, and the condition step's own output
value is `\x7bcondition: bool, result: bool\x7d` (first conjunct, an exact
characterization of the condition handler for an arbitrary workflow and run
state); and in scenario S1 the run completes, the true-branch mock LLM step
has committed output `"[MOCK] Response to: ok"`, the false-branch step id is
absent from the run's outputs map and has no StepExecution row at all, and
the condition step's committed output is
`\x7bcondition: true, result: true\x7d`. -/
theorem claim1_condition_branching :
    (∀ (exec1 : ExecFun) (g : Graph) (st : StepDef) (nid : String) (s : EngSt),
      st.type = "condition" →
      runCase exec1 g st nid s =
        (match seqRun exec1
            (((outEdges g nid).filter
              (fun e => e.label == some (if evaluateCondition st s.outs then "true" else "false"))).map
              (fun e => e.targetId)) s with
         | (Except.ok _, s1) =>
           (Except.ok (Value.obj [("condition", Value.bool (evaluateCondition st s.outs)),
                                 ("result", Value.bool (evaluateCondition st s.outs))]), s1)
         | (Except.error e, s1) => (Except.error e, s1))) ∧
    (runWorkflow 100 gS1).status = "completed" ∧
    objGet (runWorkflow 100 gS1).outputs "4" = Value.str "[MOCK] Response to: ok" ∧
    hasKey (runWorkflow 100 gS1).outputs "5" = false ∧
    ((runWorkflow 100 gS1).recs.filter (fun r => r.stepId == "5")).length = 0 ∧
    objGet (runWorkflow 100 gS1).outputs "3" =
      Value.obj [("condition", Value.bool true), ("result", Value.bool true)] :=
  ⟨fun exec1 g st nid s htype => runCase_condition exec1 g st nid s htype,
   rfl, rfl, rfl, rfl, rfl⟩

/-- Witness for C1: the general clause applied to a concrete condition step
with no configured condition (evaluating to `false`) and no outgoing edges,
computed to a closed result. -/
theorem claim1_witness :
    runCase (execNode gS1 10) gS1 { id := "c", type := "condition" } "c"
        { outs := [], path := [], visited := [], recs := [] } =
      (Except.ok (Value.obj [("condition", Value.bool false), ("result", Value.bool false)]),
       { outs := [], path := [], visited := [], recs := [] }) := by
  rw [claim1_condition_branching.1 (execNode gS1 10) gS1
    { id := "c", type := "condition" } "c"
    { outs := [], path := [], visited := [], recs := [] } rfl]
  rfl

/-- C2 (code bug): scenario S3 as specified (loop `config.input =
"codeId.items"` with the code step at id `"2"`) yields loop output `[]` —
the engine resolves a non-`$` input as a literal key of the outputs map, so
the dotted key is absent and defaults to the empty array — and even with the
`$`-path form `"$2.items"` the loop output is
`[[2], [undefined], [undefined]]` rather than `[[2], [4], [6]]`, because the
`visited` set is shared by reference across iteration contexts, so the child
only executes in the first iteration (exactly one completed StepExecution
row for the child).  The parent outputs contain no `currentItem` in either
run. -/
theorem claim2_loop_s3_eval :
    (runWorkflow 100 (gS3 "2.items")).status = "completed" ∧
    objGet (runWorkflow 100 (gS3 "2.items")).outputs "3" = Value.arr [] ∧
    (runWorkflow 100 (gS3 "$2.items")).status = "completed" ∧
    objGet (runWorkflow 100 (gS3 "$2.items")).outputs "3" =
      Value.arr [Value.arr [Value.num 2 1], Value.arr [Value.undef], Value.arr [Value.undef]] ∧
    hasKey (runWorkflow 100 (gS3 "2.items")).outputs "currentItem" = false ∧
    hasKey (runWorkflow 100 (gS3 "$2.items")).outputs "currentItem" = false ∧
    countCompleted (runWorkflow 100 (gS3 "$2.items")).recs "4" = 1 :=
  ⟨rfl, rfl, rfl, rfl, rfl, rfl, rfl⟩

/-- C3: for any workflow without loop steps, every step id has at most one
completed StepExecution row per run, no matter along how many edge paths it
is reachable (the visited-set invariant; the proof does not even need the
loop-free hypothesis). -/
theorem claim3_at_most_once (fuel : Nat) (g : Graph)
    (hnoloop : ∀ st ∈ g.steps, st.type ≠ "loop") (sid : String) :
    countCompleted (runWorkflow fuel g).recs sid ≤ 1 :=
  runWorkflow_at_most_once fuel g sid

/-- Witness for C3: the loop-free diamond workflow (step 4 reachable along
two edge paths) runs with exactly one completed row for step 4. -/
theorem claim3_witness :
    (∀ st ∈ gDiamond.steps, st.type ≠ "loop") ∧
    countCompleted (runWorkflow 50 gDiamond).recs "4" ≤ 1 ∧
    countCompleted (runWorkflow 50 gDiamond).recs "4" = 1 :=
  ⟨by decide, claim3_at_most_once 50 gDiamond (by decide) "4", rfl⟩

/-- Counterexample to C4 as stated: the workflow S → A → B → A has a
directed cycle A → B → A reachable from the start step S (the only step with
no incoming edge), yet the run terminates `completed` with no error — the
visited guard silently breaks cycles through non-branching steps. -/
theorem claim4_counterexample :
    (startSteps gCyclePlain).map (fun st => st.id) = ["S"] ∧
    (runWorkflow 100 gCyclePlain).status = "completed" ∧
    (runWorkflow 100 gCyclePlain).error = none :=
  ⟨rfl, rfl, rfl⟩

/-- C4 amended: a run fails on a cycle only when a step is re-dispatched
while still on the current call path, which happens when the cycle passes
through the in-arm child dispatch of branching steps; the error is the
message `Circular dependency detected in execution path: <path>` (not the
token `CYCLE_DETECTED`), carrying the offending path `A -> B -> A`, and no
step id has more than one completed StepExecution row in such a run.  Cycles
through non-branching steps instead complete silently, each step executing
at most once. -/
theorem claim4_amended :
    (runWorkflow 100 gCycleCond).status = "failed" ∧
    (runWorkflow 100 gCycleCond).error =
      some "Circular dependency detected in execution path: A -> B -> A" ∧
    (∀ sid, countCompleted (runWorkflow 100 gCycleCond).recs sid ≤ 1) ∧
    (runWorkflow 100 gCyclePlain).status = "completed" ∧
    (∀ sid, countCompleted (runWorkflow 100 gCyclePlain).recs sid ≤ 1) :=
  ⟨rfl, rfl, fun sid => runWorkflow_at_most_once 100 gCycleCond sid, rfl,
   fun sid => runWorkflow_at_most_once 100 gCyclePlain sid⟩

/-- Counterexample to C5 as stated: in the two-step chain 1 → 2, step 1 is a
direct predecessor of step 2 and has a committed output, yet the recorded
inputs view of step 2's StepExecution contains no entry under the
predecessor id `"1"` — it is the single binding `_all`. -/
theorem claim5_counterexample :
    objGet (runWorkflow 50 gChain).outputs "1" = Value.obj [("triggered", Value.bool true)] ∧
    (runWorkflow 50 gChain).recs.get? 1 =
      some { stepId := "2", status := "completed",
             input := [("_all", Value.obj [("1", Value.obj [("triggered", Value.bool true)])])],
             output := some (Value.str "done"), error := none } ∧
    hasKey [("_all", Value.obj [("1", Value.obj [("triggered", Value.bool true)])])] "1" = false :=
  ⟨rfl, rfl, rfl⟩

/-- C5 amended: the inputs view recorded for every dispatched step of every
run is exactly the single binding `_all` bound to the outputs snapshot;
per-predecessor entries and a top-level `currentItem` are never present
(predecessor outputs and the loop `currentItem` are reachable only through
`_all`). -/
theorem claim5_amended (fuel : Nat) (g : Graph) :
    ∀ r ∈ (runWorkflow fuel g).recs, ∃ o, r.input = [("_all", Value.obj o)] :=
  runWorkflow_inputs_shape fuel g

/-- Witness for C5: the second StepExecution row of the chain run has the
`_all`-only inputs view. -/
theorem claim5_witness :
    ∃ o, ((runWorkflow 50 gChain).recs.getD 1
      { stepId := "", status := "", input := [] }).input = [("_all", Value.obj o)] := by
  apply claim5_amended 50 gChain
  have h : (runWorkflow 50 gChain).recs.get? 1 =
      some ((runWorkflow 50 gChain).recs.getD 1 { stepId := "", status := "", input := [] }) :=
    rfl
  exact List.get?_mem h

/-- C6: for every switch step whose expression evaluates to a stringifiable
value (not `null`/`undefined`), the engine takes exactly the first outgoing
edge whose label equals the stringified value, else the first edge labelled
`"default"`, else no successor at all — and in the last case the step still
completes with output `\x7bswitchValue\x7d` and the run continues (first
conjunct, an exact characterization of the switch handler).  Concretely: in
scenario S2 with value `"b"` only branch Y (step 5) executes and the
switch's committed output is `\x7bswitchValue: "b"\x7d`; with value `"z"` the
`"default"` branch Z executes; and with value `"z"` but no matching or
default edge the run still completes with no successor executed. -/
theorem claim6_switch_selection :
    (∀ (exec1 : ExecFun) (g : Graph) (st : StepDef) (nid : String) (s : EngSt),
      st.type = "switch" →
      evaluateSwitchExpression st s.outs ≠ Value.null →
      evaluateSwitchExpression st s.outs ≠ Value.undef →
      runCase exec1 g st nid s =
        (match ((outEdges g nid).find?
              (fun e => e.label == some (jsToString (evaluateSwitchExpression st s.outs)))).orElse
            (fun _ => (outEdges g nid).find? (fun e => e.label == some "default")) with
         | none => (Except.ok (Value.obj [("switchValue", evaluateSwitchExpression st s.outs)]), s)
         | some e =>
           match exec1 e.targetId s with
           | (Except.ok _, s1) =>
             (Except.ok (Value.obj [("switchValue", evaluateSwitchExpression st s.outs)]), s1)
           | (Except.error er, s1) => (Except.error er, s1))) ∧
    (runWorkflow 100 (gS2 (Value.str "b") s2Edges)).status = "completed" ∧
    objGet (runWorkflow 100 (gS2 (Value.str "b") s2Edges)).outputs "5" = Value.str "Y" ∧
    hasKey (runWorkflow 100 (gS2 (Value.str "b") s2Edges)).outputs "4" = false ∧
    hasKey (runWorkflow 100 (gS2 (Value.str "b") s2Edges)).outputs "6" = false ∧
    objGet (runWorkflow 100 (gS2 (Value.str "b") s2Edges)).outputs "3" =
      Value.obj [("switchValue", Value.str "b")] ∧
    objGet (runWorkflow 100 (gS2 (Value.str "z") s2Edges)).outputs "6" = Value.str "Z" ∧
    (runWorkflow 100 (gS2 (Value.str "z")
      [{ sourceId := "3", targetId := "4", label := some "a" }])).status = "completed" ∧
    hasKey (runWorkflow 100 (gS2 (Value.str "z")
      [{ sourceId := "3", targetId := "4", label := some "a" }])).outputs "4" = false :=
  ⟨fun exec1 g st nid s htype hnn hnu => runCase_switch exec1 g st nid s htype hnn hnu,
   rfl, rfl, rfl, rfl, rfl, rfl, rfl, rfl⟩

/-- Witness for C6: the general clause applied to a concrete switch step
whose expression returns `"b"`, with no outgoing edges, computed to a closed
result. -/
theorem claim6_witness :
    runCase (execNode gS1 10) gS1
        { id := "w", type := "switch", expression := some (fun _ _ => Except.ok (Value.str "b")) }
        "w" { outs := [], path := [], visited := [], recs := [] } =
      (Except.ok (Value.obj [("switchValue", Value.str "b")]),
       { outs := [], path := [], visited := [], recs := [] }) := by
  rw [claim6_switch_selection.1 (execNode gS1 10) gS1
    { id := "w", type := "switch", expression := some (fun _ _ => Except.ok (Value.str "b")) }
    "w" { outs := [], path := [], visited := [], recs := [] } rfl
    (fun h => Value.noConfusion h) (fun h => Value.noConfusion h)]
  rfl

/-- C7 (spec-modelled webhook gateway): with `config.secret` present, a
request whose `X-Webhook-Signature` equals the hex HMAC-SHA256 of the raw
body under the secret is accepted with 202 and starts a run; a request with
any other signature, a request with a body whose MAC differs, or a request
with no signature at all, is rejected with 401 and no run is created. -/
theorem claim7_webhook_auth (secret : String) (body : List Nat) :
    handleWebhook (some secret)
      { body := body, signature := some (hmacSha256Hex (strBytes secret) body) } = (202, true) ∧
    (∀ sig2, sig2 ≠ hmacSha256Hex (strBytes secret) body →
      handleWebhook (some secret) { body := body, signature := some sig2 } = (401, false)) ∧
    (∀ body2, hmacSha256Hex (strBytes secret) body2 ≠ hmacSha256Hex (strBytes secret) body →
      handleWebhook (some secret)
        { body := body2, signature := some (hmacSha256Hex (strBytes secret) body) } =
        (401, false)) ∧
    handleWebhook (some secret) { body := body, signature := none } = (401, false) := by
  refine ⟨?_, ?_, ?_, rfl⟩
  · simp [handleWebhook]
  · intro sig2 hne
    simp [handleWebhook, hne]
  · intro body2 hne
    simp [handleWebhook]
    intro h
    exact absurd h.symm hne

set_option maxRecDepth 200000 in
/-- Witness for C7 at scenario S5's secret and body: the correctly signed
request is accepted; flipping one byte of the signature (prepending changes
it) or one byte of the body (`hi` → `Hi`, whose HMAC differs — computed) is
rejected with 401 and no run. -/
theorem claim7_witness :
    handleWebhook (some "k")
      { body := strBytes "\x7b\"m\":\"hi\"\x7d",
        signature := some (hmacSha256Hex (strBytes "k") (strBytes "\x7b\"m\":\"hi\"\x7d")) } =
      (202, true) ∧
    handleWebhook (some "k")
      { body := strBytes "\x7b\"m\":\"hi\"\x7d",
        signature := some ("0" ++ hmacSha256Hex (strBytes "k") (strBytes "\x7b\"m\":\"hi\"\x7d")) } =
      (401, false) ∧
    handleWebhook (some "k")
      { body := strBytes "\x7b\"m\":\"Hi\"\x7d",
        signature := some (hmacSha256Hex (strBytes "k") (strBytes "\x7b\"m\":\"hi\"\x7d")) } =
      (401, false) :=
  ⟨(claim7_webhook_auth "k" (strBytes "\x7b\"m\":\"hi\"\x7d")).1,
   (claim7_webhook_auth "k" (strBytes "\x7b\"m\":\"hi\"\x7d")).2.1 _ (by decide),
   (claim7_webhook_auth "k" (strBytes "\x7b\"m\":\"hi\"\x7d")).2.2.1 _ (by decide)⟩

/-- C8: the template resolver substitutes a `\x7b\x7bpath\x7d\x7d` placeholder with
the stringified value of the trimmed dotted-path lookup over the inputs map
and leaves the placeholder verbatim when the lookup is undefined (first
conjunct, for an arbitrary well-formed placeholder body); the literal path
`_all` resolves to the whole inputs map; a leading `$` is stripped; and the
two specified round-trips hold:
`resolve("\x7b\x7ba.b\x7d\x7d", \x7ba: \x7bb: "x"\x7d\x7d) = "x"` and
`resolve("\x7b\x7bmissing\x7d\x7d", \x7b\x7d) = "\x7b\x7bmissing\x7d\x7d"`. -/
theorem claim8_template_resolver :
    (∀ (m : RObj) (p : String), p ≠ "" → (∀ c ∈ p.data, c ≠ '}') →
      processTemplate ("\x7b\x7b" ++ p ++ "\x7d\x7d") m =
        (match getInputValue m (strTrim p) with
         | Value.undef => "\x7b\x7b" ++ p ++ "\x7d\x7d"
         | v => jsToString v)) ∧
    (∀ m : RObj, getInputValue m "_all" = Value.obj m) ∧
    (∀ (m : RObj) (p : String), p ≠ "" → strStartsWith p "$" = false →
      getInputValue m ("$" ++ p) = getInputValue m p) ∧
    processTemplate ("\x7b\x7b" ++ "a.b" ++ "\x7d\x7d") [("a", Value.obj [("b", Value.str "x")])] = "x" ∧
    processTemplate ("\x7b\x7b" ++ "missing" ++ "\x7d\x7d") [] = "\x7b\x7bmissing\x7d\x7d" :=
  ⟨fun m p hne hnb => processTemplate_single m p hne hnb,
   fun m => getInputValue_all m,
   fun m p hne hns => getInputValue_strip m p hne hns,
   rfl, rfl⟩

/-- Witness for C8: the general placeholder clause applied at the claim's own
example, and the `$`-strip clause at a concrete path. -/
theorem claim8_witness :
    processTemplate ("\x7b\x7b" ++ "a.b" ++ "\x7d\x7d") [("a", Value.obj [("b", Value.str "x")])] =
      (match getInputValue [("a", Value.obj [("b", Value.str "x")])] (strTrim "a.b") with
       | Value.undef => "\x7b\x7b" ++ "a.b" ++ "\x7d\x7d"
       | v => jsToString v) ∧
    getInputValue [("k", Value.num 1 1)] ("$" ++ "k") = getInputValue [("k", Value.num 1 1)] "k" :=
  ⟨claim8_template_resolver.1 [("a", Value.obj [("b", Value.str "x")])] "a.b"
     (by decide) (by decide),
   claim8_template_resolver.2.2.1 [("k", Value.num 1 1)] "k" (by decide) (by decide)⟩

/-- C9 (implicit): a throwing condition expression is swallowed —
`evaluateCondition` returns `false` whenever the configured expression
throws (first conjunct), so the step completes normally.  Concretely, in the
workflow whose condition throws, the run completes (it is never failed by a
condition-expression error), the condition step's StepExecution row is
`completed` with output `\x7bcondition: false, result: false\x7d`, that value is
committed to the outputs map, and only the `"false"` branch executed. -/
theorem claim9_condition_error_swallowed :
    (∀ (st : StepDef) (outs : RObj) (fn : RObj → RObj → Except String Bool) (e : String),
      st.condition = some fn → fn (getNodeInputs st.id outs) outs = Except.error e →
      evaluateCondition st outs = false) ∧
    (runWorkflow 100 gCondThrow).status = "completed" ∧
    (runWorkflow 100 gCondThrow).error = none ∧
    (runWorkflow 100 gCondThrow).recs.get? 1 =
      some { stepId := "2", status := "completed",
             input := [("_all", Value.obj [("1", Value.obj [("triggered", Value.bool true)])])],
             output := some (Value.obj [("condition", Value.bool false),
                                        ("result", Value.bool false)]),
             error := none } ∧
    objGet (runWorkflow 100 gCondThrow).outputs "2" =
      Value.obj [("condition", Value.bool false), ("result", Value.bool false)] ∧
    objGet (runWorkflow 100 gCondThrow).outputs "4" = Value.str "F" ∧
    hasKey (runWorkflow 100 gCondThrow).outputs "3" = false :=
  ⟨fun st outs fn e hc he => evaluateCondition_error st outs fn e hc he,
   rfl, rfl, rfl, rfl, rfl, rfl⟩

/-- Witness for C9: the swallowing clause applied to a concrete throwing
condition. -/
theorem claim9_witness :
    evaluateCondition
      { id := "x", type := "condition",
        condition := some (fun _ _ => Except.error "boom is not defined") } [] = false :=
  claim9_condition_error_swallowed.1
    { id := "x", type := "condition",
      condition := some (fun _ _ => Except.error "boom is not defined") }
    [] (fun _ _ => Except.error "boom is not defined") "boom is not defined" rfl rfl

/-- C10 (implicit): a loop step whose `config.input` neither starts with `$`
nor is a key of the outputs map resolves its item list to the empty array
instead of raising: the handler returns `[]` with the context unchanged —
no child dispatch, no error (first conjunct, an exact characterization).
Concretely, the run with loop input `"nope"` completes, commits `[]` as the
loop output, marks the loop StepExecution `completed`, and creates no
StepExecution row for the loop's child. -/
theorem claim10_loop_missing_key :
    (∀ (exec1 : ExecFun) (g : Graph) (st : StepDef) (nid : String) (s : EngSt),
      st.type = "loop" →
      strStartsWith (st.input.getD "") "$" = false →
      hasKey s.outs (st.input.getD "") = false →
      runCase exec1 g st nid s = (Except.ok (Value.arr []), s)) ∧
    (runWorkflow 100 gLoopMissing).status = "completed" ∧
    (runWorkflow 100 gLoopMissing).error = none ∧
    objGet (runWorkflow 100 gLoopMissing).outputs "2" = Value.arr [] ∧
    ((runWorkflow 100 gLoopMissing).recs.filter
      (fun r => r.stepId == "2" && r.status == "completed")).length = 1 ∧
    ((runWorkflow 100 gLoopMissing).recs.filter (fun r => r.stepId == "3")).length = 0 :=
  ⟨fun exec1 g st nid s htype hnd hnk => runCase_loop_missing exec1 g st nid s htype hnd hnk,
   rfl, rfl, rfl, rfl, rfl⟩

/-- Witness for C10: the general clause applied to a concrete loop step with
input `"nope"` over empty outputs. -/
theorem claim10_witness :
    runCase (execNode gS1 10) gS1 { id := "l", type := "loop", input := some "nope" } "l"
        { outs := [], path := [], visited := [], recs := [] } =
      (Except.ok (Value.arr []), { outs := [], path := [], visited := [], recs := [] }) :=
  claim10_loop_missing_key.1 (execNode gS1 10) gS1
    { id := "l", type := "loop", input := some "nope" } "l"
    { outs := [], path := [], visited := [], recs := [] } rfl (by decide) rfl
